import Mathlib

/-!
# Routing trees of `senior_go`

A shallow embedding of the two routers of the repository:

* `SeniorGo.Server` : `src/server/router.go` (static, `:param` and `*` segments);
* `SeniorGo.Web`    : `src/homework/class1/route.go` (adds regular-expression segments).

Go strings are modelled as lists of characters, Go maps as association lists
(first binding wins, `mapSet` overwrites in place), and the pointer tree as an
owned tree: a child is addressed by the `Slot` of its parent that holds it.
A function that panics returns the state it has reached together with the
panic, so partial mutations stay visible.
-/

namespace SeniorGo

/-- Go `string`, as the list of its characters. -/
abbrev Str := List Char

/-- Identity of a `HandleFunc` value; the nil function is `none : Option Handler`. -/
abbrev Handler := Nat

/-- Go `strings.Split(s, sep)` for a one-character separator. -/
def split (sep : Char) : Str → List Str
  | [] => [[]]
  | c :: cs =>
    if c = sep then [] :: split sep cs
    else match split sep cs with
      | [] => [[c]]
      | s :: ss => (c :: s) :: ss

/-- Go `strings.TrimPrefix(s, "/")`. -/
def trimPrefixSlash : Str → Str
  | '/' :: rest => rest
  | s => s

/-- Go `strings.Trim(s, "/")`: all leading and trailing slashes removed. -/
def trimSlash (s : Str) : Str :=
  (s.dropWhile (fun c => c = '/')).rdropWhile (fun c => c = '/')

/-- Go `strings.Contains(s, "//")`. -/
def containsDoubleSlash : Str → Bool
  | a :: b :: rest => (a = '/' && b = '/') || containsDoubleSlash (b :: rest)
  | _ => false

/-- The request or pattern text `s1/s2/.../sk` of a list of segments. -/
def joinPath : List Str → Str
  | [] => []
  | [s] => s
  | s :: rest => s ++ '/' :: joinPath rest

/-- Read of a Go map `m[k]`: the value and the `ok` flag as an `Option`. -/
def mapGet {β : Type} (k : Str) : List (Str × β) → Option β
  | [] => none
  | (k', v) :: rest => if k' = k then some v else mapGet k rest

/-- Write of a Go map `m[k] = v`. -/
def mapSet {β : Type} (k : Str) (v : β) : List (Str × β) → List (Str × β)
  | [] => [(k, v)]
  | (k', v') :: rest => if k' = k then (k, v) :: rest else (k', v') :: mapSet k v rest

/-! ## `src/server/router.go` -/

namespace Server

/-- Position of a child inside its parent: a key of `children`, `paramChild`
or `starChild`. -/
inductive Slot where
  | static (seg : Str)
  | param
  | star
deriving DecidableEq, Repr

/-- Struct `node`. A nil `children` map is the empty association list (the code
never holds an empty non-nil map: it inserts right after `make`). -/
inductive Node where
  | mk (path : Str) (children : List (Str × Node)) (starChild : Option Node)
       (paramChild : Option Node) (handler : Option Handler)

namespace Node

def path : Node → Str
  | mk p _ _ _ _ => p

def children : Node → List (Str × Node)
  | mk _ cs _ _ _ => cs

def starChild : Node → Option Node
  | mk _ _ s _ _ => s

def paramChild : Node → Option Node
  | mk _ _ _ p _ => p

def handler : Node → Option Handler
  | mk _ _ _ _ h => h

/-- The literal `&node{path: seg}`. -/
def fresh (seg : Str) : Node := mk seg [] none none none

/-- Assignment `n.handler = h`. -/
def setHandler : Node → Option Handler → Node
  | mk p cs s pc _, h => mk p cs s pc h

/-- The child held in a slot, if any. -/
def child : Node → Slot → Option Node
  | n, .static seg => mapGet seg n.children
  | n, .param => n.paramChild
  | n, .star => n.starChild

/-- Store `c` in a slot (what a write through the child pointer does to the parent). -/
def setChild : Node → Slot → Node → Node
  | mk p cs s pc h, .static seg, c => mk p (mapSet seg c cs) s pc h
  | mk p cs s _ h, .param, c => mk p cs s (some c) h
  | mk p cs _ pc h, .star, c => mk p cs (some c) pc h

end Node

/-- Struct `router`. -/
structure Router where
  tree : List (Str × Node)

/-- Struct `matchInfo`; a nil `pathParams` map is `none`. -/
structure MatchInfo where
  n : Node
  pathParams : Option (List (Str × Str))

/-- The panics of `addRoute` and `getOrCreateChild`, one per `panic` call of the
source, and the runtime panic of `seg[0]` on an empty segment. -/
inductive Panic where
  | emptyPath
  | noLeadingSlash
  | trailingSlash
  | emptySegment
  | duplicateRoute
  | paramAfterStar
  | starAfterParam
  | indexOutOfRange
deriving DecidableEq, Repr

/-- Runtime faults a lookup could raise. -/
inductive Fault where
  | nilDereference
  | sliceOutOfRange
deriving DecidableEq, Repr

def newRouter : Router := ⟨[]⟩

/-- Method `node.getOrCreateChild`. On success: the receiver after the call, the
slot the returned pointer designates, and the node it points to. -/
def getOrCreateChild (n : Node) (seg : Str) : Except Panic (Node × Slot × Node) :=
  match seg with
  | [] => .error .indexOutOfRange
  | c :: _ =>
    if c = ':' then
      if n.starChild.isSome then .error .paramAfterStar
      else match n.paramChild with
        | some pc => .ok (n, .param, pc)
        | none => .ok (n.setChild .param (Node.fresh seg), .param, Node.fresh seg)
    else if seg = ['*'] then
      if n.paramChild.isSome then .error .starAfterParam
      else match n.starChild with
        | some sc => .ok (n, .star, sc)
        | none => .ok (n.setChild .star (Node.fresh seg), .star, Node.fresh seg)
    else if n.children.isEmpty then
      .ok (n.setChild (.static seg) (Node.fresh seg), .static seg, Node.fresh seg)
    else match mapGet seg n.children with
      | some ch => .ok (n, .static seg, ch)
      | none => .ok (n.setChild (.static seg) (Node.fresh seg), .static seg, Node.fresh seg)

/-- The segment loop of `addRoute` followed by its terminal step, run on the node
`n` the variable `root` points to. Returns `n` after the run (mutations made
before a panic included) and the panic, if one was raised. -/
def addSegs : List Str → Node → Option Handler → Node × Option Panic
  | [], n, h =>
    if n.handler.isSome then (n, some .duplicateRoute) else (n.setHandler h, none)
  | seg :: rest, n, h =>
    if seg = [] then (n, some .emptySegment)
    else match getOrCreateChild n seg with
      | .error e => (n, some e)
      | .ok (n', slot, ch) =>
        let res := addSegs rest ch h
        (n'.setChild slot res.1, res.2)

/-- Method `router.addRoute`: the table after the call and the panic raised, if any. -/
def addRoute (r : Router) (method path : Str) (handleFunc : Option Handler) :
    Router × Option Panic :=
  if path = [] then (r, some .emptyPath)
  else
    let r1 : Router :=
      match mapGet method r.tree with
      | some _ => r
      | none => ⟨mapSet method (Node.mk ['/'] [] none none none) r.tree⟩
    let root : Node := (mapGet method r1.tree).getD (Node.mk ['/'] [] none none none)
    if path.head? ≠ some '/' then (r1, some .noLeadingSlash)
    else if path ≠ ['/'] ∧ path.getLast? = some '/' then (r1, some .trailingSlash)
    else if path = ['/'] then
      if root.handler.isSome then (r1, some .duplicateRoute)
      else (⟨mapSet method (root.setHandler handleFunc) r1.tree⟩, none)
    else
      let res := addSegs (split '/' (trimPrefixSlash path)) root handleFunc
      (⟨mapSet method res.1 r1.tree⟩, res.2)

/-- Method `node.childOf` on a possibly nil receiver: the node returned (nil is
`none`), the `paramChild` flag and the `found` flag. -/
def childOf (n : Option Node) (seg : Str) : Except Fault (Option Node × Bool × Bool) :=
  match n with
  | none => .error .nilDereference
  | some n =>
    if n.children.isEmpty then
      match n.paramChild with
      | some pc => .ok (some pc, true, true)
      | none => .ok (n.starChild, false, n.starChild.isSome)
    else match mapGet seg n.children with
      | none =>
        match n.paramChild with
        | some pc => .ok (some pc, true, true)
        | none => .ok (n.starChild, false, n.starChild.isSome)
      | some ch => .ok (some ch, false, true)

/-- The segment loop of `findRoute` and its final return, with `root` the
current node pointer and `pathParams` the map built so far. -/
def findLoop : List Str → Option Node → Option (List (Str × Str)) →
    Except Fault (Option MatchInfo × Bool)
  | [], root, pathParams =>
    match root with
    | none => .error .nilDereference
    | some n => .ok (some ⟨n, pathParams⟩, n.handler.isSome)
  | seg :: rest, root, pathParams =>
    match childOf root seg with
    | .error e => .error e
    | .ok (ch, paramChild, found) =>
      if !found then .ok (none, false)
      else if paramChild then
        match ch with
        | none => .error .nilDereference
        | some c =>
          match c.path with
          | [] => .error .sliceOutOfRange
          | _ :: name => findLoop rest ch (some (mapSet name seg (pathParams.getD [])))
      else findLoop rest ch pathParams

/-- Method `router.findRoute`: the `*matchInfo` (nil is `none`) and the found flag. -/
def findRoute (r : Router) (method path : Str) : Except Fault (Option MatchInfo × Bool) :=
  match mapGet method r.tree with
  | none => .ok (none, false)
  | some root =>
    if path = ['/'] then .ok (some ⟨root, none⟩, true)
    else findLoop (split '/' (trimSlash path)) (some root) none

/-- The slot `getOrCreateChild` reads or fills for a non-empty segment. -/
def slotOf (seg : Str) : Slot :=
  match seg with
  | [] => .static seg
  | c :: _ => if c = ':' then .param else if seg = ['*'] then .star else .static seg

/-- The node a pattern's segments lead to, following existing children only. -/
def nodeAt : List Str → Node → Option Node
  | [], n => some n
  | seg :: rest, n =>
    match n.child (slotOf seg) with
    | none => none
    | some ch => nodeAt rest ch

/-- The node reached from `n` through a chain of slots. -/
def Node.descend : List Slot → Node → Option Node
  | [], n => some n
  | s :: rest, n =>
    match n.child s with
    | none => none
    | some ch => Node.descend rest ch

/-- Every node of the tree under `root` satisfies `P`. -/
def Node.AllNodes (P : Node → Prop) (root : Node) : Prop :=
  ∀ slots n, Node.descend slots root = some n → P n

/-- A node does not hold a param child and a wildcard child at once. -/
def Node.Exclusive (n : Node) : Prop :=
  n.paramChild = none ∨ n.starChild = none

/-- The param child of a node, if any, has a non-empty path, so that the slice
`child.path[1:]` of `findRoute` is in range. -/
def Node.ParamPathNonempty (n : Node) : Prop :=
  ∀ pc, n.paramChild = some pc → pc.path ≠ []

/-- The keys of `children` are static segments: none starts with `:` or is `*`. -/
def Node.StaticKeys (n : Node) : Prop :=
  ∀ k c, mapGet k n.children = some c → slotOf k = .static k

/-- Tables built from `newRouter` by `addRoute` calls, the raising ones included. -/
inductive Reachable : Router → Prop where
  | fresh : Reachable newRouter
  | step (r : Router) (method path : Str) (handleFunc : Option Handler) :
      Reachable r → Reachable (addRoute r method path handleFunc).1

/-- A property of single nodes that the nodes `addRoute` creates have and that
its two writes keep: setting a handler, and storing, in the slot
`getOrCreateChild` returned, a node with the path of the one it returned. -/
structure LocalInvariant (P : Node → Prop) : Prop where
  fresh : ∀ seg : Str, P (Node.fresh seg)
  setHandler : ∀ (n : Node) (h : Option Handler), P n → P (n.setHandler h)
  step : ∀ (n n' ch d : Node) (slot : Slot) (seg : Str),
    getOrCreateChild n seg = .ok (n', slot, ch) → P n → d.path = ch.path →
    P (n'.setChild slot d)

/-- The segments `addRoute` walks for a pattern: none for `/`, which sets the
root handler directly. -/
def patternSegs (path : Str) : List Str :=
  if path = ['/'] then [] else split '/' (trimPrefixSlash path)

end Server

/-! ## `src/homework/class1/route.go` -/

namespace Web

/-- Package `regexp` of the Go standard library, which is outside the repository.
A compiled expression is represented by its source text (what `String()`
returns); `compiles` tells whether `regexp.Compile` accepts a text and
`matchString` is `MatchString` of the expression compiled from it. -/
structure RegexpLib where
  compiles : Str → Bool
  matchString : Str → Str → Bool

/-- Type `nodeType` with its four constants. -/
inductive NodeType where
  | nodeTypeStatic
  | nodeTypeReg
  | nodeTypeParam
  | nodeTypeAny
deriving DecidableEq, Repr

/-- Position of a child inside its parent: a key of `children`, `regChild`,
`paramChild` or `starChild`. -/
inductive Slot where
  | static (seg : Str)
  | reg
  | param
  | star
deriving DecidableEq, Repr

/-- Struct `node`; a nil `children` map is the empty association list and a nil
`regExpr` is `none`. -/
inductive Node where
  | mk (typ : NodeType) (path : Str) (children : List (Str × Node))
       (handler : Option Handler) (starChild : Option Node) (paramChild : Option Node)
       (paramName : Str) (regChild : Option Node) (regExpr : Option Str)

namespace Node

def typ : Node → NodeType
  | mk t _ _ _ _ _ _ _ _ => t

def path : Node → Str
  | mk _ p _ _ _ _ _ _ _ => p

def children : Node → List (Str × Node)
  | mk _ _ cs _ _ _ _ _ _ => cs

def handler : Node → Option Handler
  | mk _ _ _ h _ _ _ _ _ => h

def starChild : Node → Option Node
  | mk _ _ _ _ s _ _ _ _ => s

def paramChild : Node → Option Node
  | mk _ _ _ _ _ pc _ _ _ => pc

def paramName : Node → Str
  | mk _ _ _ _ _ _ pn _ _ => pn

def regChild : Node → Option Node
  | mk _ _ _ _ _ _ _ rc _ => rc

def regExpr : Node → Option Str
  | mk _ _ _ _ _ _ _ _ re => re

/-- Assignment `n.handler = h`. -/
def setHandler : Node → Option Handler → Node
  | mk t p cs _ s pc pn rc re, h => mk t p cs h s pc pn rc re

/-- The child held in a slot, if any. -/
def child : Node → Slot → Option Node
  | n, .static seg => mapGet seg n.children
  | n, .reg => n.regChild
  | n, .param => n.paramChild
  | n, .star => n.starChild

/-- Store `c` in a slot (what a write through the child pointer does to the parent). -/
def setChild : Node → Slot → Node → Node
  | mk t p cs h s pc pn rc re, .static seg, c => mk t p (mapSet seg c cs) h s pc pn rc re
  | mk t p cs h s pc pn _ re, .reg, c => mk t p cs h s pc pn (some c) re
  | mk t p cs h s _ pn rc re, .param, c => mk t p cs h s (some c) pn rc re
  | mk t p cs h _ pc pn rc re, .star, c => mk t p cs h (some c) pc pn rc re

/-- The node reached from `n` through a chain of slots. -/
def descend : List Slot → Node → Option Node
  | [], n => some n
  | s :: rest, n =>
    match n.child s with
    | none => none
    | some ch => descend rest ch

/-- A node without children, as `childOrCreate` creates them. -/
def IsLeaf (n : Node) : Prop :=
  n.children = [] ∧ n.starChild = none ∧ n.paramChild = none ∧ n.regChild = none

/-- Every node of the tree under `root` satisfies `P`. -/
def AllNodes (P : Node → Prop) (root : Node) : Prop :=
  ∀ slots n, descend slots root = some n → P n

/-- Every entry of `children` is a static node stored under its own path. -/
def StaticKeyed (n : Node) : Prop :=
  ∀ k c, mapGet k n.children = some c → c.typ = .nodeTypeStatic ∧ c.path = k

/-- At most one of `paramChild`, `regChild` and `starChild` is non-nil. -/
def AtMostOneDynamic (n : Node) : Prop :=
  (n.paramChild = none ∧ n.regChild = none) ∨ (n.paramChild = none ∧ n.starChild = none) ∨
    (n.regChild = none ∧ n.starChild = none)

end Node

/-- Struct `router`. -/
structure Router where
  trees : List (Str × Node)

/-- Struct `matchInfo`; a nil `pathParams` map is `none`. -/
structure MatchInfo where
  n : Node
  pathParams : Option (List (Str × Str))

/-- The panics of `addRoute` and `childOrCreate`, one per `panic` call of the
source, and the runtime panics of an index or a nil pointer. -/
inductive Panic where
  | emptyRoute
  | rootConflict
  | doubleSlash
  | invalidPath
  | noLeadingSlash
  | trailingSlash
  | routeConflict
  | starAfterParam
  | starAfterReg
  | regexpCompile
  | regConflict
  | regAfterStar
  | regAfterParam
  | invalidRegPath
  | paramConflict
  | paramAfterStar
  | paramAfterReg
  | indexOutOfRange
  | nilDereference
deriving DecidableEq, Repr

/-- Runtime faults a lookup could raise. -/
inductive Fault where
  | nilDereference
deriving DecidableEq, Repr

def newRouter : Router := ⟨[]⟩

/-- Method `node.childOf`: the node hit, `none` when the second result is false. -/
def childOf (lib : RegexpLib) (n : Node) (path : Str) : Except Fault (Option Node) :=
  let paramOrStar : Option Node :=
    match n.paramChild with
    | some pc =>
      if pc.typ = .nodeTypeParam then some pc
      else match n.starChild with
        | some sc => if sc.typ = .nodeTypeAny then some sc else none
        | none => none
    | none =>
      match n.starChild with
      | some sc => if sc.typ = .nodeTypeAny then some sc else none
      | none => none
  let dynamic : Except Fault (Option Node) :=
    match n.regChild with
    | some rc =>
      if rc.typ = .nodeTypeReg then
        match rc.regExpr with
        | none => .error .nilDereference
        | some re => if lib.matchString re path then .ok (some rc) else .ok paramOrStar
      else .ok paramOrStar
    | none => .ok paramOrStar
  match mapGet path n.children with
  | some staticChild =>
    if staticChild.typ = .nodeTypeStatic ∧ staticChild.path = path then .ok (some staticChild)
    else dynamic
  | none => dynamic

/-- Branch `path == "*"` of `childOrCreate` (lines 195-211). -/
def starOrCreate (n : Node) : Except Panic (Node × Slot × Node) :=
  match n.starChild with
  | some sc => .ok (n, .star, sc)
  | none =>
    if n.paramChild.isSome then .error .starAfterParam
    else if n.regChild.isSome then .error .starAfterReg
    else
      let ch := Node.mk .nodeTypeAny ['*'] [] none none none [] none none
      .ok (n.setChild .star ch, .star, ch)

/-- Branch `len(tmps) == 2` of `childOrCreate` (lines 216-246), with `tmp0` and
`tmp1` the two parts of the segment around its `(`. -/
def regOrCreate (lib : RegexpLib) (n : Node) (path tmp0 tmp1 : Str) :
    Except Panic (Node × Slot × Node) :=
  match tmp1.getLast? with
  | none => .error .indexOutOfRange
  | some last =>
    if last = ')' then
      if !lib.compiles tmp1.dropLast then .error .regexpCompile
      else match n.regChild with
        | some rc =>
          if rc.paramName = tmp0 then
            match rc.regExpr with
            | none => .error .nilDereference
            | some re => if re = tmp1.dropLast then .ok (n, .reg, rc) else .error .regConflict
          else .error .regConflict
        | none =>
          if n.starChild.isSome then .error .regAfterStar
          else if n.paramChild.isSome then .error .regAfterParam
          else
            let ch := Node.mk .nodeTypeReg path [] none none none tmp0 none (some tmp1.dropLast)
            .ok (n.setChild .reg ch, .reg, ch)
    else .error .invalidRegPath

/-- Param branch of `childOrCreate` (lines 248-267), with `tmp0` the text
`tmps[0]` before the first `(` of the segment. -/
def paramOrCreate (n : Node) (path tmp0 : Str) : Except Panic (Node × Slot × Node) :=
  match n.paramChild with
  | some pc =>
    if pc.paramName = path.tail then .ok (n, .param, pc) else .error .paramConflict
  | none =>
    if n.starChild.isSome then .error .paramAfterStar
    else if n.regChild.isSome then .error .paramAfterReg
    else
      let ch := Node.mk .nodeTypeParam path [] none none none tmp0 none none
      .ok (n.setChild .param ch, .param, ch)

/-- Static branch of `childOrCreate` (lines 269-281). -/
def staticOrCreate (n : Node) (path : Str) : Except Panic (Node × Slot × Node) :=
  match mapGet path n.children with
  | some ch => .ok (n, .static path, ch)
  | none =>
    let ch := Node.mk .nodeTypeStatic path [] none none none [] none none
    .ok (n.setChild (.static path) ch, .static path, ch)

/-- Method `node.childOrCreate`. On success: the receiver after the call, the
slot the returned pointer designates, and the node it points to. -/
def childOrCreate (lib : RegexpLib) (n : Node) (path : Str) :
    Except Panic (Node × Slot × Node) :=
  if path = ['*'] then starOrCreate n
  else match path with
    | [] => .error .indexOutOfRange
    | c :: tail =>
      if c = ':' then
        let tmps := split '(' tail
        if tmps.length = 2 then regOrCreate lib n path (tmps.getD 0 []) (tmps.getD 1 [])
        else paramOrCreate n path (tmps.getD 0 [])
      else staticOrCreate n path

/-- The segment loop of `addRoute` followed by its terminal step, run on the node
`n` the variable `root` points to. Returns `n` after the run (mutations made
before a panic included) and the panic, if one was raised. The check
`root == nil` of the loop cannot fire: `childOrCreate` returns a node or panics. -/
def addSegs (lib : RegexpLib) : List Str → Node → Option Handler → Node × Option Panic
  | [], n, h =>
    if n.handler.isSome then (n, some .routeConflict) else (n.setHandler h, none)
  | seg :: rest, n, h =>
    match childOrCreate lib n seg with
    | .error e => (n, some e)
    | .ok (n', slot, ch) =>
      let res := addSegs lib rest ch h
      (n'.setChild slot res.1, res.2)

/-- Method `router.addRoute`: the table after the call and the panic raised, if any. -/
def addRoute (lib : RegexpLib) (r : Router) (method path : Str) (handler : Option Handler) :
    Router × Option Panic :=
  let r1 : Router :=
    match mapGet method r.trees with
    | some _ => r
    | none => ⟨mapSet method (Node.mk .nodeTypeStatic ['/'] [] none none none [] none none)
        r.trees⟩
  let root : Node :=
    (mapGet method r1.trees).getD (Node.mk .nodeTypeStatic ['/'] [] none none none [] none none)
  if path = [] then (r1, some .emptyRoute)
  else if path = ['/'] then
    if root.handler.isSome then (r1, some .rootConflict)
    else (⟨mapSet method (root.setHandler handler) r1.trees⟩, none)
  else if containsDoubleSlash path then (r1, some .doubleSlash)
  else
    let pathSegments := split '/' path
    if pathSegments.length < 2 then (r1, some .invalidPath)
    else if pathSegments.head? ≠ some [] then (r1, some .noLeadingSlash)
    else if pathSegments.getLast? = some [] then (r1, some .trailingSlash)
    else
      let res := addSegs lib pathSegments.tail root handler
      (⟨mapSet method res.1 r1.trees⟩, res.2)

/-- The segment loop of `findRoute` and its final return, with `child` the
current node and `pathParams` the field `ret.pathParams` built so far. -/
def findLoop (lib : RegexpLib) : List Str → Node → Option (List (Str × Str)) →
    Except Fault (Option MatchInfo × Bool)
  | [], child, pathParams => .ok (some ⟨child, pathParams⟩, true)
  | segment :: rest, child, pathParams =>
    match childOf lib child segment with
    | .error e => .error e
    | .ok none =>
      if child.typ = .nodeTypeAny then .ok (some ⟨child, none⟩, true)
      else .ok (none, false)
    | .ok (some newchild) =>
      if newchild.typ = .nodeTypeParam ∨ newchild.typ = .nodeTypeReg then
        findLoop lib rest newchild
          (some (mapSet newchild.paramName segment (pathParams.getD [])))
      else findLoop lib rest newchild pathParams

/-- Method `router.findRoute` on a non-nil router: the `*matchInfo` (nil is
`none`) and the found flag. -/
def findRoute (lib : RegexpLib) (r : Router) (method path : Str) :
    Except Fault (Option MatchInfo × Bool) :=
  match mapGet method r.trees with
  | none => .ok (none, false)
  | some tree =>
    if path = ['/'] then
      if tree.path = ['/'] then .ok (some ⟨tree, none⟩, true) else .ok (none, false)
    else
      let pathSegments := split '/' path
      if pathSegments.length = 0 then .ok (none, false)
      else
        let pathSegments :=
          if pathSegments.head? = some [] then pathSegments.tail else pathSegments
        findLoop lib pathSegments tree none

/-- The segment loop of `findRoute` (lines 105-121) for as long as every segment
selects a child: the node `child` and the map `ret.pathParams` reached once all
of `segs` are consumed, `none` when `childOf` misses or faults on the way. -/
def walk (lib : RegexpLib) : List Str → Node → Option (List (Str × Str)) →
    Option (Node × Option (List (Str × Str)))
  | [], child, pathParams => some (child, pathParams)
  | segment :: rest, child, pathParams =>
    match childOf lib child segment with
    | .error _ => none
    | .ok none => none
    | .ok (some newchild) =>
      if newchild.typ = .nodeTypeParam ∨ newchild.typ = .nodeTypeReg then
        walk lib rest newchild
          (some (mapSet newchild.paramName segment (pathParams.getD [])))
      else walk lib rest newchild pathParams

/-- Tables built from `newRouter` by `addRoute` calls, the raising ones included. -/
inductive Reachable (lib : RegexpLib) : Router → Prop where
  | fresh : Reachable lib newRouter
  | step (r : Router) (method path : Str) (handler : Option Handler) :
      Reachable lib r → Reachable lib (addRoute lib r method path handler).1

/-- A property of single nodes that new leaves have and that the two writes of
`addRoute` keep: setting a handler, and storing, in the slot `childOrCreate`
returned, a node of the kind and path of the one it returned. -/
structure LocalInvariant (lib : RegexpLib) (P : Node → Prop) : Prop where
  leaf : ∀ n : Node, n.IsLeaf → P n
  setHandler : ∀ (n : Node) (h : Option Handler), P n → P (n.setHandler h)
  step : ∀ (n n' ch d : Node) (slot : Slot) (seg : Str),
    childOrCreate lib n seg = .ok (n', slot, ch) → P n →
    d.typ = ch.typ → d.path = ch.path → P (n'.setChild slot d)

/-- A toy instance of the `regexp` package for concrete runs: every text
compiles and an expression matches exactly its own text. -/
def literalLib : RegexpLib := ⟨fun _ => true, fun re s => re = s⟩

end Web

/-! # Theorems -/

/-! ## Strings and maps -/

theorem split_of_not_mem (sep : Char) (s : Str) (hs : sep ∉ s) : split sep s = [s] := by
  induction s with
  | nil => simp [split]
  | cons c cs ih =>
    have hc : c ≠ sep := fun e => hs (by simp [e])
    have hcs : sep ∉ cs := fun e => hs (by simp [e])
    simp [split, hc, ih hcs]

theorem split_append_sep (sep : Char) (a b : Str) (ha : sep ∉ a) :
    split sep (a ++ sep :: b) = a :: split sep b := by
  induction a with
  | nil => simp [split]
  | cons c cs ih =>
    have hc : c ≠ sep := fun e => ha (by simp [e])
    have hcs : sep ∉ cs := fun e => ha (by simp [e])
    simp [split, hc, ih hcs]

theorem mapGet_mapSet_self {β : Type} (k : Str) (v : β) (l : List (Str × β)) :
    mapGet k (mapSet k v l) = some v := by
  induction l with
  | nil => simp [mapSet, mapGet]
  | cons e rest ih =>
    obtain ⟨k', v'⟩ := e
    by_cases hk : k' = k <;> simp [mapSet, mapGet, hk, ih]

theorem mapGet_mapSet_of_ne {β : Type} (k k' : Str) (v : β) (l : List (Str × β))
    (hk : k' ≠ k) : mapGet k' (mapSet k v l) = mapGet k' l := by
  induction l with
  | nil => simp [mapSet, mapGet, Ne.symm hk]
  | cons e rest ih =>
    obtain ⟨k0, v0⟩ := e
    by_cases h0 : k0 = k
    · subst h0
      simp [mapSet, mapGet, Ne.symm hk]
    · by_cases h1 : k0 = k'
      · subst h1
        simp [mapSet, mapGet, h0]
      · simp [mapSet, mapGet, h0, h1, ih]

theorem mapSet_of_mapGet {β : Type} (k : Str) (v : β) (l : List (Str × β))
    (hg : mapGet k l = some v) : mapSet k v l = l := by
  induction l with
  | nil => simp [mapGet] at hg
  | cons e rest ih =>
    obtain ⟨k', v'⟩ := e
    by_cases hk : k' = k
    · simp [mapGet, hk] at hg
      simp [mapSet, hk, hg]
    · simp [mapGet, hk] at hg
      simp [mapSet, hk, ih hg]

theorem mapSet_mapSet {β : Type} (k : Str) (v w : β) (l : List (Str × β)) :
    mapSet k w (mapSet k v l) = mapSet k w l := by
  induction l with
  | nil => simp [mapSet]
  | cons e rest ih =>
    obtain ⟨k', v'⟩ := e
    by_cases hk : k' = k <;> simp [mapSet, hk, ih]

theorem trimSlash_of_clean (s : Str) (hs : s ≠ []) (hhead : s.head? ≠ some '/')
    (hlast : s.getLast? ≠ some '/') : trimSlash ('/' :: s) = s := by
  unfold trimSlash
  have h1 : List.dropWhile (fun c => decide (c = '/')) ('/' :: s) = s := by
    cases s with
    | nil => exact absurd rfl hs
    | cons c cs =>
      have hc : c ≠ '/' := by simpa using hhead
      simp [List.dropWhile, hc]
  rw [h1, List.rdropWhile_eq_self_iff]
  intro hl
  rw [List.getLast?_eq_getLast _ hl] at hlast
  simpa using hlast

theorem getLast?_ne_of_not_mem (c : Char) (s : Str) (hs : c ∉ s) : s.getLast? ≠ some c :=
  fun e => hs (List.mem_of_getLast?_eq_some e)

theorem head?_ne_of_not_mem (c : Char) (s : Str) (hs : c ∉ s) : s.head? ≠ some c :=
  fun e => hs (List.mem_of_mem_head? (by simp [e]))

theorem joinPath_cons_cons (s t : Str) (ts : List Str) :
    joinPath (s :: t :: ts) = s ++ '/' :: joinPath (t :: ts) := rfl

theorem joinPath_ne_nil (s : Str) (rest : List Str) (hs : s ≠ []) : joinPath (s :: rest) ≠ [] := by
  cases rest <;> simp [joinPath, hs]

theorem split_joinPath (segs : List Str) (hne : segs ≠ []) (hclean : ∀ s ∈ segs, '/' ∉ s) :
    split '/' (joinPath segs) = segs := by
  induction segs with
  | nil => exact absurd rfl hne
  | cons s rest ih =>
    cases rest with
    | nil => simpa [joinPath] using split_of_not_mem '/' s (hclean s (by simp))
    | cons t ts =>
      have h1 := ih (by simp) (fun x hx => hclean x (List.mem_cons_of_mem _ hx))
      rw [joinPath_cons_cons, split_append_sep _ _ _ (hclean s (by simp)), h1]

theorem joinPath_head? (s : Str) (rest : List Str) (hs : s ≠ []) :
    (joinPath (s :: rest)).head? = s.head? := by
  cases s with
  | nil => exact absurd rfl hs
  | cons c cs => cases rest <;> simp [joinPath]

theorem joinPath_getLast? (segs : List Str) (hne : segs ≠ []) (hclean : ∀ s ∈ segs, s ≠ [])
    (c : Char) (hc : ∀ s ∈ segs, s.getLast? ≠ some c) : (joinPath segs).getLast? ≠ some c := by
  induction segs with
  | nil => exact absurd rfl hne
  | cons s rest ih =>
    cases rest with
    | nil => simpa [joinPath] using hc s (by simp)
    | cons t ts =>
      have h1 := ih (by simp) (fun x hx => hclean x (List.mem_cons_of_mem _ hx))
        (fun x hx => hc x (List.mem_cons_of_mem _ hx))
      have h2 : joinPath (t :: ts) ≠ [] := joinPath_ne_nil t ts (hclean t (by simp))
      rw [joinPath_cons_cons, List.getLast?_append_of_ne_nil _ (by simp)]
      cases hj : joinPath (t :: ts) with
      | nil => exact absurd hj h2
      | cons d ds =>
        rw [List.getLast?_cons_cons, ← hj]
        exact h1

namespace Server

theorem addRoute_newRouter (m rest : Str) (h : Option Handler) (hrest : rest ≠ [])
    (hlast : rest.getLast? ≠ some '/') :
    addRoute newRouter m ('/' :: rest) h =
      (⟨[(m, (addSegs (split '/' rest) (Node.mk ['/'] [] none none none) h).1)]⟩,
        (addSegs (split '/' rest) (Node.mk ['/'] [] none none none) h).2) := by
  have h1 : ('/' :: rest).getLast? = rest.getLast? := by
    cases rest with
    | nil => exact absurd rfl hrest
    | cons c cs => simp
  simp [addRoute, newRouter, mapGet, mapSet, hrest, h1, hlast, trimPrefixSlash]

theorem findRoute_clean (r : Router) (m rest : Str) (root : Node)
    (hroot : mapGet m r.tree = some root) (hrest : rest ≠ [])
    (hhead : rest.head? ≠ some '/') (hlast : rest.getLast? ≠ some '/') :
    findRoute r m ('/' :: rest) = findLoop (split '/' rest) (some root) none := by
  simp [findRoute, hroot, hrest, trimSlash_of_clean rest hrest hhead hlast]

/-- Claim C1 (round-trip capture, `src/server/router.go`): on a fresh router,
registering `/login/:name` with a non-nil handler succeeds, and looking up
`/login/v` for a non-empty slash-free `v` reports found, returns the node that
carries the handler, and binds exactly `name` to `v`. -/
theorem roundTripCapture (m name v : Str) (h : Handler)
    (hname : name ≠ []) (hnameSlash : '/' ∉ name) (hv : v ≠ []) (hvSlash : '/' ∉ v) :
    (addRoute newRouter m ("/login/:".toList ++ name) (some h)).2 = none ∧
    findRoute (addRoute newRouter m ("/login/:".toList ++ name) (some h)).1 m
        ("/login/".toList ++ v)
      = .ok (some ⟨Node.mk (':' :: name) [] none none (some h), some [(name, v)]⟩, true) := by
  have e1 : "/login/:".toList ++ name = '/' :: ("login".toList ++ '/' :: (':' :: name)) := rfl
  have e2 : "/login/".toList ++ v = '/' :: ("login".toList ++ '/' :: v) := rfl
  have hl1 : ("login".toList ++ '/' :: (':' :: name)).getLast? ≠ some '/' := by
    rw [List.getLast?_append_of_ne_nil _ (by simp), List.getLast?_cons_cons]
    cases name with
    | nil => exact absurd rfl hname
    | cons c cs =>
      rw [List.getLast?_cons_cons]
      exact getLast?_ne_of_not_mem _ _ hnameSlash
  have hl2 : ("login".toList ++ '/' :: v).getLast? ≠ some '/' := by
    rw [List.getLast?_append_of_ne_nil _ (by simp)]
    cases v with
    | nil => exact absurd rfl hv
    | cons c cs =>
      rw [List.getLast?_cons_cons]
      exact getLast?_ne_of_not_mem _ _ hvSlash
  have hs1 : split '/' ("login".toList ++ '/' :: (':' :: name)) = ["login".toList, ':' :: name] := by
    rw [split_append_sep _ _ _ (by decide), split_of_not_mem _ _ (by simpa using hnameSlash)]
  have hs2 : split '/' ("login".toList ++ '/' :: v) = ["login".toList, v] := by
    rw [split_append_sep _ _ _ (by decide), split_of_not_mem _ _ hvSlash]
  rw [e1, e2, addRoute_newRouter _ _ _ (by simp) hl1, hs1]
  refine ⟨by simp [addSegs, getOrCreateChild, Node.setChild, Node.fresh, Node.setHandler,
    Node.children, Node.paramChild, Node.starChild, Node.handler, mapGet, mapSet], ?_⟩
  rw [findRoute_clean _ _ _ _ (by simp [mapGet]; rfl) (by simp) (by simp) hl2, hs2]
  simp [addSegs, getOrCreateChild, findLoop, childOf, mapGet, mapSet,
    Node.setChild, Node.fresh, Node.setHandler, Node.children, Node.paramChild, Node.starChild,
    Node.handler, Node.path]

theorem findLoop_found (segs : List Str) (root : Option Node) (pp : Option (List (Str × Str)))
    (res : Option MatchInfo) (hres : findLoop segs root pp = .ok (res, true)) :
    ∃ info, res = some info ∧ info.n.handler ≠ none := by
  induction segs generalizing root pp with
  | nil =>
    cases root with
    | none => simp [findLoop] at hres
    | some n =>
      simp only [findLoop, Except.ok.injEq, Prod.mk.injEq] at hres
      refine ⟨⟨n, pp⟩, hres.1.symm, ?_⟩
      intro hn
      simp [hn] at hres
  | cons seg rest ih =>
    rw [findLoop] at hres
    split at hres
    · simp at hres
    · rename_i ch pc found _
      cases found with
      | false => simp at hres
      | true =>
        cases pc with
        | false => exact ih _ _ (by simpa using hres)
        | true =>
          simp only [Bool.not_true, Bool.false_eq_true, if_false, if_true] at hres
          split at hres
          · simp at hres
          · split at hres
            · simp at hres
            · exact ih _ _ hres

theorem getOrCreateChild_leaf (p seg : Str) (h : Option Handler) (hseg : seg ≠ []) :
    getOrCreateChild (Node.mk p [] none none h) seg =
      .ok ((Node.mk p [] none none h).setChild (slotOf seg) (Node.fresh seg), slotOf seg,
        Node.fresh seg) := by
  cases seg with
  | nil => exact absurd rfl hseg
  | cons c cs =>
    by_cases hc : c = ':'
    · simp [getOrCreateChild, slotOf, hc, Node.starChild, Node.paramChild]
    · by_cases hstar : c :: cs = ['*']
      · simp [getOrCreateChild, slotOf, hc, hstar, Node.starChild, Node.paramChild]
      · simp [getOrCreateChild, slotOf, hc, hstar, Node.children]

/-- Claim C2 (non-routable intermediate node, `src/server/router.go`): on every
table, a lookup of a path other than `/` that reports found returns a node with
a non-nil handler; and after registering only `/a/b` on a fresh router, the
lookup of `/a` returns the node of `a` with the found flag false. -/
theorem nonRoutableIntermediate :
    (∀ (r : Router) (m p : Str) (res : Option MatchInfo), p ≠ ['/'] →
      findRoute r m p = .ok (res, true) → ∃ info, res = some info ∧ info.n.handler ≠ none) ∧
    (∀ (m a b : Str) (h : Option Handler), a ≠ [] → '/' ∉ a → a.head? ≠ some ':' →
      a ≠ ['*'] → b ≠ [] → '/' ∉ b →
      (addRoute newRouter m ('/' :: joinPath [a, b]) h).2 = none ∧
      findRoute (addRoute newRouter m ('/' :: joinPath [a, b]) h).1 m ('/' :: a) =
        .ok (some ⟨(Node.fresh a).setChild (slotOf b) ((Node.fresh b).setHandler h), none⟩,
          false)) := by
  constructor
  · intro r m p res hp hres
    unfold findRoute at hres
    split at hres
    · simp at hres
    · rw [if_neg hp] at hres
      exact findLoop_found _ _ _ _ hres
  · intro m a b h ha haSlash haColon haStar hb hbSlash
    have hclean : ∀ s ∈ [a, b], '/' ∉ s := by
      intro s hs
      simp at hs
      rcases hs with rfl | rfl <;> assumption
    have hne : ∀ s ∈ [a, b], s ≠ [] := by
      intro s hs
      simp at hs
      rcases hs with rfl | rfl <;> assumption
    have hlast : (joinPath [a, b]).getLast? ≠ some '/' :=
      joinPath_getLast? _ (by simp) hne '/' (fun s hs => getLast?_ne_of_not_mem _ _ (hclean s hs))
    have hslot : slotOf a = .static a := by
      cases a with
      | nil => exact absurd rfl ha
      | cons c cs =>
        have hc : c ≠ ':' := by simpa using haColon
        simp [slotOf, hc, haStar]
    rw [addRoute_newRouter _ _ _ (joinPath_ne_nil a [b] ha) hlast,
      split_joinPath _ (by simp) hclean,
      findRoute_clean _ _ _ _ (by simp [mapGet]; rfl) ha (head?_ne_of_not_mem _ _ haSlash)
        (getLast?_ne_of_not_mem _ _ haSlash),
      split_of_not_mem _ _ haSlash]
    simp [addSegs, ha, hb, getOrCreateChild_leaf, Node.fresh, hslot, Node.setChild, findLoop,
      childOf, Node.children, mapSet, mapGet, Node.handler, Node.setHandler]
    cases hsb : slotOf b <;> simp [Node.setChild, Node.handler, mapSet]

/-- Witness of `nonRoutableIntermediate`: only `/order/detail` is registered and
`/order` is looked up. -/
theorem nonRoutableIntermediate_witness :
    findRoute (addRoute newRouter "GET".toList ('/' :: joinPath ["order".toList, "detail".toList])
        (some 1)).1 "GET".toList ('/' :: "order".toList) =
      .ok (some ⟨(Node.fresh "order".toList).setChild (slotOf "detail".toList)
        ((Node.fresh "detail".toList).setHandler (some 1)), none⟩, false) :=
  (nonRoutableIntermediate.2 "GET".toList "order".toList "detail".toList (some 1)
    (by decide) (by decide) (by decide) (by decide) (by decide) (by decide)).2

/-- Witness of `roundTripCapture`: the case `/login/:username`, `/login/daidai53`
of `TestRouter_FindRoute`. -/
theorem roundTripCapture_witness :
    (addRoute newRouter "POST".toList ("/login/:".toList ++ "username".toList) (some 7)).2 = none ∧
    findRoute (addRoute newRouter "POST".toList ("/login/:".toList ++ "username".toList)
        (some 7)).1 "POST".toList ("/login/".toList ++ "daidai53".toList) =
      .ok (some ⟨Node.mk (':' :: "username".toList) [] none none (some 7),
        some [("username".toList, "daidai53".toList)]⟩, true) :=
  roundTripCapture "POST".toList "username".toList "daidai53".toList 7
    (by decide) (by decide) (by decide) (by decide)

/-- Claim C3 (root lookup, `src/server/router.go`), the code at the failing input:
with only `/user` registered for `GET`, the root node has no handler and the
lookup of `/` still reports found. -/
theorem rootLookup_found_without_handler :
    (addRoute newRouter "GET".toList "/user".toList (some 1)).2 = none ∧
    findRoute (addRoute newRouter "GET".toList "/user".toList (some 1)).1 "GET".toList
        "/".toList =
      .ok (some ⟨Node.mk ['/'] [("user".toList, Node.mk "user".toList [] none none (some 1))]
        none none none, none⟩, true) :=
  ⟨rfl, rfl⟩

/-- Claim C4 as stated fails: after `/files/*`, the two-segment path `/files/a/b`
is not found. -/
theorem wildcardGreediness_counterexample :
    findRoute (addRoute newRouter "GET".toList "/files/*".toList (some 1)).1 "GET".toList
        "/files/a/b".toList = .ok (none, false) :=
  rfl

/-- Claim C4 amended (`src/server/router.go`): after `/files/*` on a fresh router,
`/files/s1/.../sk` is found, at the wildcard node carrying the handler, when
`k = 1`, and is not found when `k ≥ 2`: the wildcard matches one segment. -/
theorem wildcardSingleSegment (m : Str) (h : Handler) (segs : List Str) (hne : segs ≠ [])
    (hclean : ∀ s ∈ segs, s ≠ [] ∧ '/' ∉ s) :
    (addRoute newRouter m "/files/*".toList (some h)).2 = none ∧
    findRoute (addRoute newRouter m "/files/*".toList (some h)).1 m
        ('/' :: joinPath ("files".toList :: segs)) =
      if segs.length = 1 then .ok (some ⟨Node.mk ['*'] [] none none (some h), none⟩, true)
      else .ok (none, false) := by
  have e1 : "/files/*".toList = '/' :: joinPath ["files".toList, ['*']] := rfl
  have hall : ∀ s ∈ "files".toList :: segs, s ≠ [] ∧ '/' ∉ s := by
    intro s hs
    rcases List.mem_cons.1 hs with rfl | hs
    · exact ⟨by decide, by decide⟩
    · exact hclean s hs
  have hlast : (joinPath ("files".toList :: segs)).getLast? ≠ some '/' :=
    joinPath_getLast? _ (by simp) (fun s hs => (hall s hs).1) '/'
      (fun s hs => getLast?_ne_of_not_mem _ _ (hall s hs).2)
  rw [e1, addRoute_newRouter _ _ _ (by decide) (by decide), split_joinPath _ (by simp)
    (by decide)]
  refine ⟨by simp [addSegs, getOrCreateChild_leaf, Node.fresh, Node.setChild, Node.handler,
    slotOf], ?_⟩
  rw [findRoute_clean _ _ _ _ (by simp [mapGet]; rfl) (joinPath_ne_nil _ _ (by decide))
      (by rw [joinPath_head? _ _ (by decide)]; decide) hlast,
    split_joinPath _ (by simp) (fun s hs => (hall s hs).2)]
  cases segs with
  | nil => exact absurd rfl hne
  | cons s1 rest =>
    cases rest with
    | nil =>
      simp [addSegs, getOrCreateChild_leaf, Node.fresh, Node.setChild, Node.handler, slotOf,
        findLoop, childOf, mapGet, mapSet, Node.children, Node.paramChild, Node.starChild,
        Node.setHandler]
    | cons s2 rest2 =>
      simp [addSegs, getOrCreateChild_leaf, Node.fresh, Node.setChild, Node.handler, slotOf,
        findLoop, childOf, mapGet, mapSet, Node.children, Node.paramChild, Node.starChild,
        Node.setHandler]

/-- Witness of `wildcardSingleSegment` at the path `/files/a/b/c`. -/
theorem wildcardSingleSegment_witness :
    findRoute (addRoute newRouter "GET".toList "/files/*".toList (some 1)).1 "GET".toList
        ('/' :: joinPath ["files".toList, "a".toList, "b".toList, "c".toList]) =
      .ok (none, false) :=
  (wildcardSingleSegment "GET".toList 1 ["a".toList, "b".toList, "c".toList] (by decide)
    (by decide)).2


/-! ### Slots of a node -/

theorem Node.setChild_of_child (n ch : Node) (slot : Slot) (hch : n.child slot = some ch) :
    n.setChild slot ch = n := by
  obtain ⟨p, cs, s, pc, h⟩ := n
  cases slot with
  | static seg =>
    simp only [Node.child, Node.children] at hch
    simp [Node.setChild, mapSet_of_mapGet _ _ _ hch]
  | param =>
    simp only [Node.child, Node.paramChild] at hch
    simp [Node.setChild, hch]
  | star =>
    simp only [Node.child, Node.starChild] at hch
    simp [Node.setChild, hch]

theorem Node.child_setChild (n c : Node) (slot : Slot) :
    (n.setChild slot c).child slot = some c := by
  obtain ⟨p, cs, s, pc, h⟩ := n
  cases slot <;>
    simp [Node.setChild, Node.child, Node.children, Node.paramChild, Node.starChild,
      mapGet_mapSet_self]

theorem Node.setChild_setChild (n c d : Node) (slot : Slot) :
    (n.setChild slot c).setChild slot d = n.setChild slot d := by
  obtain ⟨p, cs, s, pc, h⟩ := n
  cases slot <;> simp [Node.setChild, mapSet_mapSet]

theorem mapSet_isEmpty {β : Type} (k : Str) (v : β) (l : List (Str × β)) :
    (mapSet k v l).isEmpty = false := by
  cases l with
  | nil => simp [mapSet]
  | cons e rest =>
    obtain ⟨k', v'⟩ := e
    by_cases hk : k' = k <;> simp [mapSet, hk]

/-- What a successful `getOrCreateChild` returns: the slot is the one of the
segment, the returned node sits in that slot of the receiver, and a second call
after any write through the returned pointer finds the written node. -/
theorem getOrCreateChild_ok (n n' ch : Node) (slot : Slot) (seg : Str)
    (hok : getOrCreateChild n seg = .ok (n', slot, ch)) :
    slot = slotOf seg ∧ n'.child slot = some ch ∧
      ∀ d, getOrCreateChild (n'.setChild slot d) seg = .ok (n'.setChild slot d, slot, d) := by
  obtain ⟨p, cs, s, pc, h⟩ := n
  cases seg with
  | nil => simp [getOrCreateChild] at hok
  | cons c rest =>
    by_cases hc : c = ':'
    · subst hc
      cases s with
      | some sc => simp [getOrCreateChild, Node.starChild] at hok
      | none =>
        cases pc with
        | some pc0 =>
          simp only [getOrCreateChild, Node.starChild, Node.paramChild, if_true,
            Option.isSome_none, Bool.false_eq_true, if_false, Except.ok.injEq,
            Prod.mk.injEq] at hok
          obtain ⟨rfl, rfl, rfl⟩ := hok
          simp [slotOf, Node.child, Node.paramChild, Node.setChild, getOrCreateChild,
            Node.starChild]
        | none =>
          simp only [getOrCreateChild, Node.starChild, Node.paramChild, if_true,
            Option.isSome_none, Bool.false_eq_true, if_false, Except.ok.injEq,
            Prod.mk.injEq] at hok
          obtain ⟨rfl, rfl, rfl⟩ := hok
          simp [slotOf, Node.child, Node.paramChild, Node.setChild, getOrCreateChild,
            Node.starChild]
    · by_cases hstar : c :: rest = ['*']
      · cases pc with
        | some pc0 => simp [getOrCreateChild, hc, hstar, Node.paramChild] at hok
        | none =>
          cases s with
          | some sc =>
            simp only [getOrCreateChild, hc, hstar, Node.starChild, Node.paramChild, if_true,
              Option.isSome_none, Bool.false_eq_true, if_false, Except.ok.injEq,
              Prod.mk.injEq] at hok
            obtain ⟨rfl, rfl, rfl⟩ := hok
            simp [slotOf, hc, hstar, Node.child, Node.paramChild, Node.setChild,
              getOrCreateChild, Node.starChild]
          | none =>
            simp only [getOrCreateChild, hc, hstar, Node.starChild, Node.paramChild, if_true,
              Option.isSome_none, Bool.false_eq_true, if_false, Except.ok.injEq,
              Prod.mk.injEq] at hok
            obtain ⟨rfl, rfl, rfl⟩ := hok
            simp [slotOf, hc, hstar, Node.child, Node.paramChild, Node.setChild,
              getOrCreateChild, Node.starChild]
      · simp only [getOrCreateChild, hc, hstar, if_false] at hok
        split at hok
        · simp only [Except.ok.injEq, Prod.mk.injEq] at hok
          obtain ⟨rfl, rfl, rfl⟩ := hok
          simp [slotOf, hc, hstar, Node.child, Node.children, Node.setChild, getOrCreateChild,
            mapGet_mapSet_self, mapSet_isEmpty, mapSet_mapSet]
        · split at hok
          · rename_i ch0 hget
            simp only [Except.ok.injEq, Prod.mk.injEq] at hok
            obtain ⟨rfl, rfl, rfl⟩ := hok
            simp [slotOf, hc, hstar, Node.child, Node.children, Node.setChild,
              getOrCreateChild, mapGet_mapSet_self, mapSet_isEmpty, mapSet_mapSet] at hget ⊢
            exact hget
          · simp only [Except.ok.injEq, Prod.mk.injEq] at hok
            obtain ⟨rfl, rfl, rfl⟩ := hok
            simp [slotOf, hc, hstar, Node.child, Node.children, Node.setChild,
              getOrCreateChild, mapGet_mapSet_self, mapSet_isEmpty, mapSet_mapSet]

/-- On a segment whose slot is occupied, `getOrCreateChild` either panics or
returns that child and leaves the receiver as it is. -/
theorem getOrCreateChild_of_child (n ch : Node) (seg : Str)
    (hch : n.child (slotOf seg) = some ch) :
    getOrCreateChild n seg = .ok (n, slotOf seg, ch) ∨
      ∃ e, getOrCreateChild n seg = .error e := by
  obtain ⟨p, cs, s, pc, h⟩ := n
  cases seg with
  | nil => exact Or.inr ⟨_, rfl⟩
  | cons c rest =>
    by_cases hc : c = ':'
    · subst hc
      simp only [slotOf, if_true, Node.child, Node.paramChild] at hch
      subst hch
      cases s with
      | some sc => exact Or.inr ⟨.paramAfterStar, by simp [getOrCreateChild, Node.starChild]⟩
      | none =>
        exact Or.inl (by simp [getOrCreateChild, Node.starChild, Node.paramChild, slotOf])
    · by_cases hstar : c :: rest = ['*']
      · simp only [slotOf, hc, hstar, if_true, if_false, Node.child, Node.starChild] at hch
        subst hch
        cases pc with
        | some pc0 =>
          exact Or.inr ⟨.starAfterParam,
            by simp [getOrCreateChild, hc, hstar, Node.paramChild]⟩
        | none =>
          exact Or.inl (by
            simp [getOrCreateChild, hc, hstar, Node.starChild, Node.paramChild, slotOf])
      · simp only [slotOf, hc, hstar, if_false, Node.child, Node.children] at hch
        have hne : cs.isEmpty = false := by
          cases cs with
          | nil => simp [mapGet] at hch
          | cons e es => rfl
        exact Or.inl (by simp [getOrCreateChild, hc, hstar, Node.children, hne, hch, slotOf])


/-! ### Registration walks -/

/-- A conflict met after walking existing nodes only leaves the tree untouched. -/
theorem addSegs_conflict (pre post : List Str) (seg : Str) (n pos : Node) (h : Option Handler)
    (hpos : nodeAt pre n = some pos) (hseg : seg ≠ [])
    (herr : ∃ e, getOrCreateChild pos seg = .error e) :
    ∃ e, addSegs (pre ++ seg :: post) n h = (n, some e) := by
  induction pre generalizing n with
  | nil =>
    obtain ⟨e, he⟩ := herr
    simp only [nodeAt, Option.some.injEq] at hpos
    subst hpos
    exact ⟨e, by simp [addSegs, hseg, he]⟩
  | cons s pre ih =>
    simp only [nodeAt] at hpos
    cases hch : n.child (slotOf s) with
    | none => simp [hch] at hpos
    | some ch =>
      simp only [hch] at hpos
      by_cases hs : s = []
      · exact ⟨.emptySegment, by simp [addSegs, hs]⟩
      · rcases getOrCreateChild_of_child n ch s hch with hok | ⟨e, he⟩
        · obtain ⟨e, he⟩ := ih ch hpos
          exact ⟨e, by simp [addSegs, hs, hok, he, Node.setChild_of_child _ _ _ hch]⟩
        · exact ⟨e, by simp [addSegs, hs, he]⟩

/-- Claim C6 (exclusivity law, `src/server/router.go`): on every table, when the
pattern has a `*` segment at a position whose node holds a param child, or a
`:name` segment at a position whose node holds a wildcard child, `addRoute`
panics and returns the table it was given. -/
theorem exclusivity (r : Router) (m path : Str) (pre post : List Str) (seg : Str)
    (h : Option Handler) (root pos : Node)
    (hroot : mapGet m r.tree = some root)
    (hsplit : split '/' (trimPrefixSlash path) = pre ++ seg :: post)
    (hpos : nodeAt pre root = some pos)
    (hconf : (seg = ['*'] ∧ pos.paramChild ≠ none) ∨
      (seg.head? = some ':' ∧ pos.starChild ≠ none)) :
    ∃ e, addRoute r m path h = (r, some e) := by
  have hseg : seg ≠ [] := by
    rcases hconf with ⟨rfl, _⟩ | ⟨hc, _⟩
    · simp
    · intro e
      simp [e] at hc
  have herr : ∃ e, getOrCreateChild pos seg = .error e := by
    rcases hconf with ⟨rfl, hp⟩ | ⟨hc, hs⟩
    · refine ⟨.starAfterParam, ?_⟩
      cases hpc : pos.paramChild with
      | none => exact absurd hpc hp
      | some pc => simp [getOrCreateChild, hpc]
    · cases seg with
      | nil => simp at hc
      | cons c cs =>
        simp only [List.head?_cons, Option.some.injEq] at hc
        subst hc
        refine ⟨.paramAfterStar, ?_⟩
        cases hsc : pos.starChild with
        | none => exact absurd hsc hs
        | some sc => simp [getOrCreateChild, hsc]
  obtain ⟨e, he⟩ := addSegs_conflict pre post seg root pos h hpos hseg herr
  have hr : (⟨mapSet m root r.tree⟩ : Router) = r := by
    rw [mapSet_of_mapGet _ _ _ hroot]
  unfold addRoute
  simp only [hroot, Option.getD_some]
  split_ifs with h1 h2 h3 h4 h5
  · exact ⟨_, rfl⟩
  · exact ⟨_, rfl⟩
  · exact ⟨_, rfl⟩
  · exact ⟨_, rfl⟩
  · exfalso
    rw [h4] at hsplit
    simp only [trimPrefixSlash, split] at hsplit
    cases pre with
    | nil =>
      simp only [List.nil_append, List.cons.injEq] at hsplit
      exact hseg hsplit.1.symm
    | cons a as =>
      simp only [List.cons_append, List.cons.injEq] at hsplit
      have := hsplit.2
      simp at this
  · rw [hsplit, he]
    exact ⟨e, by simp [hr]⟩

/-- Witness of `exclusivity`: the table holds `/login/:id` and `/login/*` is added
(`TestRouter_AddRoute`). -/
theorem exclusivity_witness :
    ∃ e, addRoute (addRoute newRouter "GET".toList "/login/:id".toList (some 1)).1
        "GET".toList "/login/*".toList (some 2) =
      ((addRoute newRouter "GET".toList "/login/:id".toList (some 1)).1, some e) :=
  exclusivity (addRoute newRouter "GET".toList "/login/:id".toList (some 1)).1
    "GET".toList "/login/*".toList ["login".toList] [] ['*'] (some 2)
    (Node.mk ['/'] [("login".toList, Node.mk "login".toList [] none
      (some (Node.mk ":id".toList [] none none (some 1))) none)] none none none)
    (Node.mk "login".toList [] none (some (Node.mk ":id".toList [] none none (some 1))) none)
    rfl (by decide) rfl (Or.inl ⟨rfl, by simp [Node.paramChild]⟩)

/-- A successful registration walk ends at a node carrying the handler; with a
non-nil handler, the same walk on the resulting tree panics and changes nothing. -/
theorem addSegs_ok (segs : List Str) (n : Node) (h : Option Handler)
    (hok : (addSegs segs n h).2 = none) :
    (∃ node, nodeAt segs (addSegs segs n h).1 = some node ∧ node.handler = h) ∧
    (h ≠ none → ∀ h2, ∃ e,
      addSegs segs (addSegs segs n h).1 h2 = ((addSegs segs n h).1, some e)) := by
  induction segs generalizing n with
  | nil =>
    obtain ⟨p, cs, s, pc, h0⟩ := n
    cases h0 with
    | some h0 => simp [addSegs, Node.handler] at hok
    | none =>
      refine ⟨⟨_, rfl, by simp [addSegs, Node.handler, Node.setHandler]⟩, ?_⟩
      intro hh h2
      cases h with
      | none => exact absurd rfl hh
      | some hv => exact ⟨.duplicateRoute, by simp [addSegs, Node.handler, Node.setHandler]⟩
  | cons seg rest ih =>
    by_cases hseg : seg = []
    · simp [addSegs, hseg] at hok
    · cases hg : getOrCreateChild n seg with
      | error e => simp [addSegs, hseg, hg] at hok
      | ok res =>
        obtain ⟨n', slot, ch⟩ := res
        obtain ⟨hslot, _, hagain⟩ := getOrCreateChild_ok n n' ch slot seg hg
        have hok' : (addSegs rest ch h).2 = none := by simpa [addSegs, hseg, hg] using hok
        obtain ⟨⟨node, hnode, hh⟩, hdup⟩ := ih ch hok'
        have hres : (addSegs (seg :: rest) n h).1 = n'.setChild slot (addSegs rest ch h).1 := by
          simp [addSegs, hseg, hg]
        rw [hres]
        constructor
        · refine ⟨node, ?_, hh⟩
          simp only [nodeAt, ← hslot, Node.child_setChild]
          exact hnode
        · intro hne h2
          obtain ⟨e, he⟩ := hdup hne h2
          exact ⟨e, by simp [addSegs, hseg, hagain, he, Node.setChild_setChild]⟩

/-- Shape of `addRoute` on a pattern that passes the checks on its two ends,
when the method already has a tree. -/
theorem addRoute_of_root (r : Router) (m p : Str) (h : Option Handler) (root : Node)
    (hroot : mapGet m r.tree = some root) (hp : p ≠ []) (hhead : p.head? = some '/')
    (hlast : ¬(p ≠ ['/'] ∧ p.getLast? = some '/')) :
    addRoute r m p h =
      if p = ['/'] then
        if root.handler.isSome then (r, some .duplicateRoute)
        else (⟨mapSet m (root.setHandler h) r.tree⟩, none)
      else (⟨mapSet m (addSegs (split '/' (trimPrefixSlash p)) root h).1 r.tree⟩,
        (addSegs (split '/' (trimPrefixSlash p)) root h).2) := by
  unfold addRoute
  simp only [hroot, Option.getD_some, if_neg hp]
  rw [if_neg (by simp [hhead]), if_neg hlast]

/-- Shape of a successful `addRoute`: the pattern passed the checks on its two
ends, and the tree of the method, created if it was missing, was walked. -/
theorem addRoute_ok (r : Router) (m p : Str) (h : Option Handler)
    (hok : (addRoute r m p h).2 = none) :
    ∃ (t : List (Str × Node)) (root : Node), mapGet m t = some root ∧ p ≠ [] ∧
      p.head? = some '/' ∧ ¬(p ≠ ['/'] ∧ p.getLast? = some '/') ∧
      (t = r.tree ∨ (mapGet m r.tree = none ∧ root = Node.mk ['/'] [] none none none ∧
        t = mapSet m root r.tree)) ∧
      addRoute r m p h = addRoute ⟨t⟩ m p h := by
  by_cases hp : p = []
  · simp [addRoute, hp] at hok
  by_cases hhead : p.head? = some '/'
  swap
  · simp [addRoute, hp, hhead] at hok
  by_cases hlast : p ≠ ['/'] ∧ p.getLast? = some '/'
  · simp [addRoute, hp, hhead, hlast] at hok
  cases hget : mapGet m r.tree with
  | some root => exact ⟨r.tree, root, hget, hp, hhead, hlast, Or.inl rfl, rfl⟩
  | none =>
    refine ⟨mapSet m (Node.mk ['/'] [] none none none) r.tree, Node.mk ['/'] [] none none none,
      mapGet_mapSet_self _ _ _, hp, hhead, hlast, Or.inr ⟨rfl, rfl, rfl⟩, ?_⟩
    rw [addRoute_of_root ⟨_⟩ m p h _ (mapGet_mapSet_self _ _ _) hp hhead hlast]
    unfold addRoute
    simp only [hget, mapGet_mapSet_self, Option.getD_some, if_neg hp]
    rw [if_neg (by simp [hhead]), if_neg hlast]

/-- Claim C7 (duplicate detection, `src/server/router.go`): on every table, if
`addRoute(m, p, h1)` with a non-nil `h1` succeeds, then a following
`addRoute(m, p, h2)` panics and returns the table unchanged, in which the node
of `p` carries `h1`. -/
theorem duplicateDetection (r : Router) (m p : Str) (h1 : Handler) (h2 : Option Handler)
    (hok : (addRoute r m p (some h1)).2 = none) :
    (∃ e, addRoute (addRoute r m p (some h1)).1 m p h2 =
      ((addRoute r m p (some h1)).1, some e)) ∧
    ∃ root node, mapGet m (addRoute (addRoute r m p (some h1)).1 m p h2).1.tree = some root ∧
      nodeAt (patternSegs p) root = some node ∧ node.handler = some h1 := by
  obtain ⟨t, root, hroot, hp, hhead, hlast, _, heq⟩ := addRoute_ok r m p (some h1) hok
  rw [heq] at hok ⊢
  rw [addRoute_of_root ⟨t⟩ m p (some h1) root hroot hp hhead hlast] at hok ⊢
  by_cases hslash : p = ['/']
  · simp only [if_pos hslash] at hok ⊢
    cases hh : root.handler with
    | some h0 => simp [hh] at hok
    | none =>
      have hnew : (Node.setHandler root (some h1)).handler = some h1 := by
        obtain ⟨p0, cs, s, pc, h0⟩ := root
        rfl
      simp only [hh, Option.isSome_none, Bool.false_eq_true, if_false]
      rw [addRoute_of_root ⟨_⟩ m p h2 _ (mapGet_mapSet_self _ _ _) hp hhead hlast]
      simp only [if_pos hslash, hnew, Option.isSome_some, if_true]
      exact ⟨⟨_, rfl⟩, _, _, mapGet_mapSet_self _ _ _, by simp [patternSegs, hslash, nodeAt],
        hnew⟩
  · simp only [if_neg hslash] at hok ⊢
    obtain ⟨⟨node, hnode, hh⟩, hdup⟩ := addSegs_ok _ root (some h1) hok
    obtain ⟨e, he⟩ := hdup (by simp) h2
    rw [addRoute_of_root ⟨_⟩ m p h2 _ (mapGet_mapSet_self _ _ _) hp hhead hlast]
    simp only [if_neg hslash, he, mapSet_mapSet]
    exact ⟨⟨e, rfl⟩, _, node, mapGet_mapSet_self _ _ _, by simpa [patternSegs, hslash] using hnode,
      hh⟩

/-- Witness of `duplicateDetection`: `/x/y` registered twice on a fresh router. -/
theorem duplicateDetection_witness :
    (∃ e, addRoute (addRoute newRouter "GET".toList "/x/y".toList (some 1)).1 "GET".toList
        "/x/y".toList (some 2) =
      ((addRoute newRouter "GET".toList "/x/y".toList (some 1)).1, some e)) ∧
    ∃ root node, mapGet "GET".toList (addRoute (addRoute newRouter "GET".toList "/x/y".toList
        (some 1)).1 "GET".toList "/x/y".toList (some 2)).1.tree = some root ∧
      nodeAt (patternSegs "/x/y".toList) root = some node ∧ node.handler = some 1 :=
  duplicateDetection newRouter "GET".toList "/x/y".toList 1 (some 2) (by decide)

end Server

/-! ### Empty segments of a split -/

theorem split_head_eq_nil (s : Str) :
    (split '/' s).head? = some [] ↔ s = [] ∨ s.head? = some '/' := by
  cases s with
  | nil => simp [split]
  | cons c cs =>
    by_cases hc : c = '/'
    · simp [split, hc]
    · cases hs : split '/' cs <;> simp [split, hc, hs]

theorem doubleSlash_infix_cons (c : Char) (s : Str) :
    ['/', '/'] <:+: c :: s ↔ (c = '/' ∧ s.head? = some '/') ∨ ['/', '/'] <:+: s := by
  rw [List.infix_cons_iff]
  cases s with
  | nil => simp
  | cons d ds => simp [List.cons_prefix_cons, eq_comm]

theorem split_tail_mem_nil (s : Str) :
    [] ∈ (split '/' s).tail ↔ s.getLast? = some '/' ∨ ['/', '/'] <:+: s := by
  induction s with
  | nil => simp [split]
  | cons c cs ih =>
    rw [doubleSlash_infix_cons]
    by_cases hc : c = '/'
    · subst hc
      have hmem : [] ∈ split '/' cs ↔ (split '/' cs).head? = some [] ∨ [] ∈ (split '/' cs).tail := by
        cases hs : split '/' cs with
        | nil => simp
        | cons a as => simp [eq_comm]
      simp only [split, if_true, List.tail_cons, hmem, split_head_eq_nil, ih]
      cases cs with
      | nil => simp
      | cons d ds =>
        simp only [List.head?_cons, Option.some.injEq, reduceCtorEq, false_or, true_and]
        tauto
    · have htail : (split '/' (c :: cs)).tail = (split '/' cs).tail := by
        cases hs : split '/' cs <;> simp [split, hc, hs]
      rw [htail, ih]
      cases cs with
      | nil => simp [hc]
      | cons d ds => simp [hc]

theorem split_mem_nil (s : Str) (hs : s ≠ []) (hlast : s.getLast? ≠ some '/') :
    [] ∈ split '/' s ↔ ['/', '/'] <:+: '/' :: s := by
  have hmem : [] ∈ split '/' s ↔ (split '/' s).head? = some [] ∨ [] ∈ (split '/' s).tail := by
    cases h : split '/' s with
    | nil => simp
    | cons a as => simp [eq_comm]
  rw [hmem, split_head_eq_nil, split_tail_mem_nil, doubleSlash_infix_cons]
  simp [hs, hlast]

namespace Server

theorem addSegs_leaf (segs : List Str) (p : Str) (h : Option Handler) :
    (addSegs segs (Node.mk p [] none none none) h).2 ≠ none ↔ [] ∈ segs := by
  induction segs generalizing p with
  | nil => simp [addSegs, Node.handler]
  | cons seg rest ih =>
    by_cases hseg : seg = []
    · simp [addSegs, hseg]
    · have := ih seg
      simp only [Node.fresh, addSegs, hseg, getOrCreateChild_leaf _ _ _ hseg, if_false] at this ⊢
      rw [this]
      simp [Ne.symm hseg]

/-- Claim C8 (input validation, `src/server/router.go`): on a fresh router and
for a non-nil handler, `addRoute` panics exactly when the path is empty, does
not start with `/`, is not `/` and ends with `/`, or contains `//`; and when it
does not panic, the node of the path carries the handler. -/
theorem inputValidation (m p : Str) (h : Handler) :
    ((addRoute newRouter m p (some h)).2 ≠ none ↔
      (p = [] ∨ p.head? ≠ some '/' ∨ (p ≠ ['/'] ∧ p.getLast? = some '/') ∨
        ['/', '/'] <:+: p)) ∧
    ((addRoute newRouter m p (some h)).2 = none →
      ∃ root node, mapGet m (addRoute newRouter m p (some h)).1.tree = some root ∧
        nodeAt (patternSegs p) root = some node ∧ node.handler = some h) := by
  constructor
  · cases p with
    | nil => simp [addRoute]
    | cons c rest =>
      by_cases hc : c = '/'
      swap
      · simp [addRoute, hc]
      subst hc
      cases hrest : rest with
      | nil =>
        have hinf : ¬['/', '/'] <:+: ['/'] := fun hi => by simpa using hi.length_le
        simp [addRoute, newRouter, mapGet, mapSet, Node.handler, hinf]
      | cons d ds =>
        rw [← hrest]
        have hne : rest ≠ [] := by simp [hrest]
        have hlast : ('/' :: rest).getLast? = rest.getLast? := by simp [hrest]
        by_cases hl : rest.getLast? = some '/'
        · simp [addRoute, hl, hlast, hne]
        · rw [addRoute_newRouter _ _ _ hne hl, addSegs_leaf, split_mem_nil _ hne hl]
          simp [hlast, hl]
  · intro hok
    obtain ⟨t, root, hroot, hp, hhead, hlast, _, heq⟩ := addRoute_ok newRouter m p (some h) hok
    rw [heq] at hok ⊢
    rw [addRoute_of_root ⟨t⟩ m p (some h) root hroot hp hhead hlast] at hok ⊢
    by_cases hslash : p = ['/']
    · simp only [if_pos hslash] at hok ⊢
      cases hh : root.handler with
      | some h0 => simp [hh] at hok
      | none =>
        have hnew : (Node.setHandler root (some h)).handler = some h := by
          obtain ⟨p0, cs, s, pc, h0⟩ := root
          rfl
        simp only [hh, Option.isSome_none, Bool.false_eq_true, if_false]
        exact ⟨_, _, mapGet_mapSet_self _ _ _, by simp [patternSegs, hslash, nodeAt], hnew⟩
    · simp only [if_neg hslash] at hok ⊢
      obtain ⟨⟨node, hnode, hh⟩, _⟩ := addSegs_ok _ root (some h) hok
      exact ⟨_, node, mapGet_mapSet_self _ _ _, by simpa [patternSegs, hslash] using hnode, hh⟩

/-- Witness of `inputValidation`: `/aa//a/` (rejected in `TestRouter_AddRoute`)
panics, and `/user/home` does not and ends at a node with the handler. -/
theorem inputValidation_witness :
    (addRoute newRouter "GET".toList "/aa//a/".toList (some 1)).2 ≠ none ∧
    ∃ root node, mapGet "GET".toList
        (addRoute newRouter "GET".toList "/user/home".toList (some 1)).1.tree = some root ∧
      nodeAt (patternSegs "/user/home".toList) root = some node ∧ node.handler = some 1 :=
  ⟨(inputValidation "GET".toList "/aa//a/".toList 1).1.2 (by decide),
    (inputValidation "GET".toList "/user/home".toList 1).2 (by decide)⟩


/-! ### Invariants of the trees built by `addRoute` -/

theorem Node.child_setChild_of_ne (n c : Node) (slot s : Slot) (hs : s ≠ slot) :
    (n.setChild slot c).child s = n.child s := by
  obtain ⟨p, cs, st, pc, h⟩ := n
  cases slot <;> cases s <;>
    simp_all [Node.setChild, Node.child, Node.children, Node.paramChild, Node.starChild]
  rename_i k k'
  exact mapGet_mapSet_of_ne _ _ _ _ hs

theorem Node.child_setHandler (n : Node) (h : Option Handler) (s : Slot) :
    (n.setHandler h).child s = n.child s := by
  obtain ⟨p, cs, st, pc, h0⟩ := n
  cases s <;> rfl

theorem Node.path_setChild (n c : Node) (slot : Slot) : (n.setChild slot c).path = n.path := by
  cases n; cases slot <;> rfl

theorem Node.path_setHandler (n : Node) (h : Option Handler) :
    (n.setHandler h).path = n.path := by
  cases n; rfl

theorem Node.allNodes_child (P : Node → Prop) (n c : Node) (s : Slot)
    (hn : Node.AllNodes P n) (hc : n.child s = some c) : Node.AllNodes P c := by
  intro slots x hx
  exact hn (s :: slots) x (by simp [Node.descend, hc, hx])

theorem Node.allNodes_of_children (P : Node → Prop) (n : Node) (hP : P n)
    (hch : ∀ s c, n.child s = some c → Node.AllNodes P c) : Node.AllNodes P n := by
  intro slots x hx
  cases slots with
  | nil =>
    simp only [Node.descend, Option.some.injEq] at hx
    exact hx ▸ hP
  | cons s rest =>
    simp only [Node.descend] at hx
    cases hc : n.child s with
    | none => simp [hc] at hx
    | some c =>
      simp only [hc] at hx
      exact hch s c hc rest x hx

theorem Node.allNodes_fresh (P : Node → Prop) (seg : Str) (hP : P (Node.fresh seg)) :
    Node.AllNodes P (Node.fresh seg) := by
  apply Node.allNodes_of_children P _ hP
  intro s c hc
  cases s <;> simp [Node.fresh, Node.child, Node.children, Node.paramChild, Node.starChild,
    mapGet] at hc

theorem Node.allNodes_setChild (P : Node → Prop) (n c : Node) (slot : Slot)
    (hn : Node.AllNodes P n) (hc : Node.AllNodes P c) (hP : P (n.setChild slot c)) :
    Node.AllNodes P (n.setChild slot c) := by
  apply Node.allNodes_of_children P _ hP
  intro s x hx
  by_cases hs : s = slot
  · subst hs
    rw [Node.child_setChild] at hx
    simp only [Option.some.injEq] at hx
    exact hx ▸ hc
  · rw [Node.child_setChild_of_ne _ _ _ _ hs] at hx
    exact Node.allNodes_child P n x s hn hx

theorem Node.allNodes_setHandler (P : Node → Prop) (n : Node) (h : Option Handler)
    (hn : Node.AllNodes P n) (hP : P (n.setHandler h)) : Node.AllNodes P (n.setHandler h) := by
  apply Node.allNodes_of_children P _ hP
  intro s x hx
  rw [Node.child_setHandler] at hx
  exact Node.allNodes_child P n x s hn hx

/-- The receiver after a successful `getOrCreateChild` is the old receiver, or
the old receiver with the node `&node{path: seg}` in the returned slot. -/
theorem getOrCreateChild_shape (n n' ch : Node) (slot : Slot) (seg : Str)
    (hok : getOrCreateChild n seg = .ok (n', slot, ch)) :
    n'.path = n.path ∧ (n' = n ∨ (n' = n.setChild slot ch ∧ ch = Node.fresh seg)) := by
  unfold getOrCreateChild at hok
  repeat' split at hok
  all_goals first
    | (exfalso; simp at hok; done)
    | (simp only [Except.ok.injEq, Prod.mk.injEq] at hok
       obtain ⟨rfl, rfl, rfl⟩ := hok
       first
         | exact ⟨rfl, Or.inl rfl⟩
         | exact ⟨Node.path_setChild _ _ _, Or.inr ⟨rfl, rfl⟩⟩)

/-- The walk of `addRoute` keeps a local invariant on every node of the tree,
and keeps the path of the node it starts from. -/
theorem addSegs_allNodes (P : Node → Prop) (hP : LocalInvariant P)
    (segs : List Str) (n : Node) (h : Option Handler) (hn : Node.AllNodes P n) :
    Node.AllNodes P (addSegs segs n h).1 ∧ (addSegs segs n h).1.path = n.path := by
  induction segs generalizing n with
  | nil =>
    unfold addSegs
    split_ifs
    · exact ⟨hn, rfl⟩
    · exact ⟨Node.allNodes_setHandler P n h hn (hP.setHandler n h (hn [] n rfl)),
        Node.path_setHandler n h⟩
  | cons seg rest ih =>
    unfold addSegs
    split_ifs
    · exact ⟨hn, rfl⟩
    cases hc : getOrCreateChild n seg with
    | error e => exact ⟨hn, rfl⟩
    | ok res =>
      obtain ⟨n', slot, ch⟩ := res
      obtain ⟨_, hchild, _⟩ := getOrCreateChild_ok n n' ch slot seg hc
      obtain ⟨hpath, hshape⟩ := getOrCreateChild_shape n n' ch slot seg hc
      have hPn' : P n' := by
        have := hP.step n n' ch ch slot seg hc (hn [] n rfl) rfl
        rwa [Node.setChild_of_child _ _ _ hchild] at this
      have hn' : Node.AllNodes P n' := by
        rcases hshape with rfl | ⟨hset, hfresh⟩
        · exact hn
        · rw [hset] at hPn' ⊢
          rw [hfresh] at hPn' ⊢
          exact Node.allNodes_setChild P n _ slot hn
            (Node.allNodes_fresh P seg (hP.fresh seg)) hPn'
      have hch : Node.AllNodes P ch := Node.allNodes_child P n' ch slot hn' hchild
      obtain ⟨h1, h2⟩ := ih ch hch
      simp only
      refine ⟨Node.allNodes_setChild P n' _ slot hn' h1 ?_, ?_⟩
      · exact hP.step n n' ch _ slot seg hc (hn [] n rfl) h2
      · rw [Node.path_setChild, hpath]

/-- Every node of every tree of a table built by `addRoute` calls satisfies a
local invariant that the root node `&node{path: "/"}` has. -/
theorem reachable_allNodes (P : Node → Prop) (hP : LocalInvariant P)
    (r : Router) (hr : Reachable r) (m : Str) (root : Node)
    (hroot : mapGet m r.tree = some root) : Node.AllNodes P root := by
  induction hr generalizing m root with
  | fresh => simp [newRouter, mapGet] at hroot
  | step r0 method path handler _ ih =>
    have hnew : Node.AllNodes P (Node.mk ['/'] [] none none none) :=
      Node.allNodes_fresh P ['/'] (hP.fresh ['/'])
    have h1 : ∀ (t : List (Str × Node)), (∀ k x, mapGet k t = some x → Node.AllNodes P x) →
        ∀ (v : Node), Node.AllNodes P v → ∀ k x, mapGet k (mapSet method v t) = some x →
          Node.AllNodes P x := by
      intro t ht v hv k x hx
      by_cases hk : k = method
      · subst hk
        rw [mapGet_mapSet_self] at hx
        simp only [Option.some.injEq] at hx
        exact hx ▸ hv
      · rw [mapGet_mapSet_of_ne _ _ _ _ hk] at hx
        exact ht k x hx
    obtain ⟨t1, root1, ht1, hroot1, hr1, hroot1OK⟩ :
        ∃ (t1 : List (Str × Node)) (root1 : Node),
          (∀ k x, mapGet k t1 = some x → Node.AllNodes P x) ∧
          (mapGet method t1).getD (Node.mk ['/'] [] none none none) = root1 ∧
          (match mapGet method r0.tree with
            | some _ => r0
            | none => (⟨mapSet method (Node.mk ['/'] [] none none none) r0.tree⟩ : Router)) =
            ⟨t1⟩ ∧
          Node.AllNodes P root1 := by
      cases hg : mapGet method r0.tree with
      | some x => exact ⟨r0.tree, x, ih, by simp [hg], rfl, ih method x hg⟩
      | none =>
        exact ⟨_, _, h1 r0.tree ih _ hnew, by simp [mapGet_mapSet_self], rfl, hnew⟩
    unfold addRoute at hroot
    simp only [hr1, hroot1] at hroot
    split_ifs at hroot
    · exact ih m root hroot
    · exact ht1 m root hroot
    · exact ht1 m root hroot
    · exact ht1 m root hroot
    · exact h1 t1 ht1 _ (Node.allNodes_setHandler P root1 handler hroot1OK
        (hP.setHandler _ _ (hroot1OK [] root1 rfl))) m root hroot
    · exact h1 t1 ht1 _ (addSegs_allNodes P hP _ root1 handler hroot1OK).1 m root hroot

/-- No node holds a param child and a wildcard child at once: a local invariant. -/
theorem exclusive_invariant : LocalInvariant Node.Exclusive where
  fresh := fun _ => Or.inl rfl
  setHandler := by
    intro n h hn
    cases n
    exact hn
  step := by
    intro n n' ch d slot seg hok hn _
    obtain ⟨p, cs, st, pc, h⟩ := n
    unfold getOrCreateChild at hok
    repeat' split at hok
    all_goals first
      | (exfalso; simp at hok; done)
      | (simp only [Except.ok.injEq, Prod.mk.injEq] at hok
         obtain ⟨rfl, rfl, rfl⟩ := hok
         simp_all [Node.Exclusive, Node.setChild, Node.paramChild, Node.starChild])

/-- Claim C10 as stated fails: after `/user/:id`, registering `/user/:name/detail`
raises nothing. -/
theorem paramNameUniqueness_counterexample :
    (addRoute (addRoute newRouter "GET".toList "/user/:id".toList (some 1)).1 "GET".toList
      "/user/:name/detail".toList (some 2)).2 = none := by
  decide

/-- Claim C10 amended (`src/server/router.go`): in every table built by
`addRoute` calls, at every node that has a param child, registering a param
segment of any name, the same or a different one, raises nothing and returns
the existing child, leaving the node and the child as they are. -/
theorem paramChildReused (r : Router) (hr : Reachable r) (m : Str) (root n pc : Node)
    (slots : List Slot) (seg : Str) (hroot : mapGet m r.tree = some root)
    (hn : Node.descend slots root = some n) (hpc : n.paramChild = some pc)
    (hseg : seg.head? = some ':') :
    getOrCreateChild n seg = .ok (n, .param, pc) := by
  have hex := reachable_allNodes _ exclusive_invariant r hr m root hroot slots n hn
  have hstar : n.starChild = none := by
    rcases hex with h | h
    · rw [hpc] at h
      cases h
    · exact h
  cases seg with
  | nil => simp at hseg
  | cons c cs =>
    simp only [List.head?_cons, Option.some.injEq] at hseg
    simp [getOrCreateChild, hseg, hstar, hpc]

/-- Witness of `paramChildReused`: the node `user` holds the param child `:id` and
the segment `:name` is registered. -/
theorem paramChildReused_witness :
    getOrCreateChild (Node.mk "user".toList [] none
        (some (Node.mk ":id".toList [] none none (some 1))) none) ":name".toList =
      .ok (Node.mk "user".toList [] none (some (Node.mk ":id".toList [] none none (some 1)))
        none, .param, Node.mk ":id".toList [] none none (some 1)) :=
  paramChildReused (addRoute newRouter "GET".toList "/user/:id".toList (some 1)).1
    (Reachable.step _ _ _ _ Reachable.fresh) "GET".toList _ _ _ [.static "user".toList]
    ":name".toList rfl rfl rfl rfl

end Server

namespace Web

/-! ### Lookup in the homework router -/

/-- If the lookup of the segments consumed so far arrives at a wildcard node that
has no child for the next segment, the lookup of the longer path stops there. -/
theorem findLoop_stop_at_wildcard (lib : RegexpLib) (pre rest : List Str) (segment : Str)
    (n w : Node) (pp pp' : Option (List (Str × Str)))
    (harrive : findLoop lib pre n pp = .ok (some ⟨w, pp'⟩, true))
    (hany : w.typ = .nodeTypeAny) (hnone : childOf lib w segment = .ok none) :
    findLoop lib (pre ++ segment :: rest) n pp = .ok (some ⟨w, none⟩, true) := by
  induction pre generalizing n pp with
  | nil =>
    simp only [findLoop, Except.ok.injEq, Prod.mk.injEq, Option.some.injEq, MatchInfo.mk.injEq,
      and_true] at harrive
    obtain ⟨rfl, _⟩ := harrive
    simp [findLoop, hnone, hany]
  | cons s pre ih =>
    simp only [List.cons_append]
    rw [findLoop] at harrive ⊢
    cases hc : childOf lib n s with
    | error e => simp [hc] at harrive
    | ok res =>
      cases res with
      | none =>
        simp only [hc] at harrive ⊢
        by_cases hn : n.typ = .nodeTypeAny
        · simp only [hn, if_true, Except.ok.injEq, Prod.mk.injEq, Option.some.injEq,
            MatchInfo.mk.injEq, and_true] at harrive ⊢
          exact harrive.1
        · simp [hn] at harrive
      | some nc =>
        simp only [hc] at harrive ⊢
        split_ifs at harrive ⊢ with ht
        · exact ih _ _ harrive
        · exact ih _ _ harrive

/-- Claim C5 (wildcard early stop, `src/homework/class1/route.go`): when the walk
is at a wildcard node for which `childOf` finds no child, `findRoute` stops and
returns that node as found, whatever remains of the path; and after `/files/*`
on a fresh router every `/files/s1/.../sk` with `k ≥ 1` returns the wildcard node. -/
theorem wildcardEarlyStop (lib : RegexpLib) :
    (∀ (pre rest : List Str) (segment : Str) (n w : Node) (pp pp' : Option (List (Str × Str))),
      findLoop lib pre n pp = .ok (some ⟨w, pp'⟩, true) → w.typ = .nodeTypeAny →
      childOf lib w segment = .ok none →
      findLoop lib (pre ++ segment :: rest) n pp = .ok (some ⟨w, none⟩, true)) ∧
    (∀ (m : Str) (h : Option Handler) (segs : List Str), segs ≠ [] → (∀ s ∈ segs, '/' ∉ s) →
      (addRoute lib newRouter m "/files/*".toList h).2 = none ∧
      findRoute lib (addRoute lib newRouter m "/files/*".toList h).1 m
          ('/' :: joinPath ("files".toList :: segs)) =
        .ok (some ⟨Node.mk .nodeTypeAny ['*'] [] h none none [] none none, none⟩, true)) := by
  refine ⟨findLoop_stop_at_wildcard lib, ?_⟩
  intro m h segs hne hclean
  have hall : ∀ s ∈ "files".toList :: segs, '/' ∉ s := by
    intro s hs
    rcases List.mem_cons.1 hs with rfl | hs
    · decide
    · exact hclean s hs
  have hadd : addRoute lib newRouter m "/files/*".toList h =
      (⟨[(m, Node.mk .nodeTypeStatic ['/'] [("files".toList,
        Node.mk .nodeTypeStatic "files".toList [] none
          (some (Node.mk .nodeTypeAny ['*'] [] h none none [] none none)) none [] none none)]
        none none none [] none none)]⟩, none) := by
    simp [addRoute, newRouter, mapGet, mapSet, containsDoubleSlash, split, addSegs,
      childOrCreate, starOrCreate, staticOrCreate, Node.setChild, Node.setHandler, Node.handler, Node.children,
      Node.starChild, Node.paramChild, Node.regChild]
  have hne2 : '/' :: joinPath ("files".toList :: segs) ≠ ['/'] := by
    have := joinPath_ne_nil "files".toList segs (by decide)
    simpa using this
  rw [hadd]
  refine ⟨rfl, ?_⟩
  have hsplit : split '/' ('/' :: joinPath ("files".toList :: segs)) =
      [] :: "files".toList :: segs := by
    rw [split, if_pos rfl, split_joinPath _ (by simp) hall]
  simp only [findRoute, mapGet, if_true, if_neg hne2, hsplit]
  cases segs with
  | nil => exact absurd rfl hne
  | cons s1 rest =>
    cases rest with
    | nil =>
      simp [findLoop, childOf, mapGet, Node.children, Node.typ, Node.path, Node.regChild,
        Node.paramChild, Node.starChild]
    | cons s2 rest2 =>
      simp [findLoop, childOf, mapGet, Node.children, Node.typ, Node.path, Node.regChild,
        Node.paramChild, Node.starChild]

/-- Witness of `wildcardEarlyStop` at the path `/files/a/b/c`. -/
theorem wildcardEarlyStop_witness :
    findRoute literalLib (addRoute literalLib newRouter "GET".toList "/files/*".toList
        (some 1)).1 "GET".toList
        ('/' :: joinPath ["files".toList, "a".toList, "b".toList, "c".toList]) =
      .ok (some ⟨Node.mk .nodeTypeAny ['*'] [] (some 1) none none [] none none, none⟩, true) :=
  ((wildcardEarlyStop literalLib).2 "GET".toList (some 1) ["a".toList, "b".toList, "c".toList]
    (by decide) (by decide)).2


/-! ### Invariants of the trees built by `addRoute` -/

theorem Node.web_child_setChild (n c : Node) (slot : Slot) :
    (n.setChild slot c).child slot = some c := by
  obtain ⟨t, p, cs, h, s, pc, pn, rc, re⟩ := n
  cases slot <;>
    simp [Node.setChild, Node.child, Node.children, Node.paramChild, Node.starChild,
      Node.regChild, mapGet_mapSet_self]

theorem Node.web_child_setChild_of_ne (n c : Node) (slot s : Slot) (hs : s ≠ slot) :
    (n.setChild slot c).child s = n.child s := by
  obtain ⟨t, p, cs, h, st, pc, pn, rc, re⟩ := n
  cases slot <;> cases s <;>
    simp_all [Node.setChild, Node.child, Node.children, Node.paramChild, Node.starChild,
      Node.regChild]
  rename_i k k'
  exact mapGet_mapSet_of_ne _ _ _ _ hs

theorem Node.web_child_setHandler (n : Node) (h : Option Handler) (s : Slot) :
    (n.setHandler h).child s = n.child s := by
  obtain ⟨t, p, cs, h0, st, pc, pn, rc, re⟩ := n
  cases s <;> rfl

theorem Node.web_allNodes_child (P : Node → Prop) (n c : Node) (s : Slot)
    (hn : Node.AllNodes P n) (hc : n.child s = some c) : Node.AllNodes P c := by
  intro slots x hx
  exact hn (s :: slots) x (by simp [Node.descend, hc, hx])

theorem Node.web_allNodes_of_children (P : Node → Prop) (n : Node) (hP : P n)
    (hch : ∀ s c, n.child s = some c → Node.AllNodes P c) : Node.AllNodes P n := by
  intro slots x hx
  cases slots with
  | nil =>
    simp only [Node.descend, Option.some.injEq] at hx
    exact hx ▸ hP
  | cons s rest =>
    simp only [Node.descend] at hx
    cases hc : n.child s with
    | none => simp [hc] at hx
    | some c =>
      simp only [hc] at hx
      exact hch s c hc rest x hx

theorem Node.allNodes_leaf (P : Node → Prop) (n : Node) (hP : P n) (hleaf : n.IsLeaf) :
    Node.AllNodes P n := by
  apply Node.web_allNodes_of_children P n hP
  intro s c hc
  obtain ⟨h1, h2, h3, h4⟩ := hleaf
  cases s <;> simp_all [Node.child, mapGet]

theorem Node.web_allNodes_setChild (P : Node → Prop) (n c : Node) (slot : Slot)
    (hn : Node.AllNodes P n) (hc : Node.AllNodes P c) (hP : P (n.setChild slot c)) :
    Node.AllNodes P (n.setChild slot c) := by
  apply Node.web_allNodes_of_children P _ hP
  intro s x hx
  by_cases hs : s = slot
  · subst hs
    rw [Node.web_child_setChild] at hx
    simp only [Option.some.injEq] at hx
    exact hx ▸ hc
  · rw [Node.web_child_setChild_of_ne _ _ _ _ hs] at hx
    exact Node.web_allNodes_child P n x s hn hx

theorem Node.web_allNodes_setHandler (P : Node → Prop) (n : Node) (h : Option Handler)
    (hn : Node.AllNodes P n) (hP : P (n.setHandler h)) : Node.AllNodes P (n.setHandler h) := by
  apply Node.web_allNodes_of_children P _ hP
  intro s x hx
  rw [Node.web_child_setHandler] at hx
  exact Node.web_allNodes_child P n x s hn hx

theorem starOrCreate_ok (n n' ch : Node) (slot : Slot)
    (hok : starOrCreate n = .ok (n', slot, ch)) :
    n'.child slot = some ch ∧ n'.typ = n.typ ∧ n'.path = n.path ∧
      (n' = n ∨ (n' = n.setChild slot ch ∧ ch.IsLeaf ∧
        ∀ k, slot = .static k → ch.typ = .nodeTypeStatic ∧ ch.path = k)) := by
  unfold starOrCreate at hok
  repeat' split at hok
  all_goals first
    | (exfalso; simp at hok; done)
    | (simp only [Except.ok.injEq, Prod.mk.injEq] at hok
       obtain ⟨rfl, rfl, rfl⟩ := hok
       first
         | exact ⟨by assumption, rfl, rfl, Or.inl rfl⟩
         | exact ⟨Node.web_child_setChild _ _ _, by cases n; rfl, by cases n; rfl,
             Or.inr ⟨rfl, ⟨rfl, rfl, rfl, rfl⟩, fun k hk => by cases hk⟩⟩)

theorem regOrCreate_ok (lib : RegexpLib) (n n' ch : Node) (slot : Slot) (path tmp0 tmp1 : Str)
    (hok : regOrCreate lib n path tmp0 tmp1 = .ok (n', slot, ch)) :
    n'.child slot = some ch ∧ n'.typ = n.typ ∧ n'.path = n.path ∧
      (n' = n ∨ (n' = n.setChild slot ch ∧ ch.IsLeaf ∧
        ∀ k, slot = .static k → ch.typ = .nodeTypeStatic ∧ ch.path = k)) := by
  unfold regOrCreate at hok
  repeat' split at hok
  all_goals first
    | (exfalso; simp at hok; done)
    | (simp only [Except.ok.injEq, Prod.mk.injEq] at hok
       obtain ⟨rfl, rfl, rfl⟩ := hok
       first
         | exact ⟨by assumption, rfl, rfl, Or.inl rfl⟩
         | exact ⟨Node.web_child_setChild _ _ _, by cases n; rfl, by cases n; rfl,
             Or.inr ⟨rfl, ⟨rfl, rfl, rfl, rfl⟩, fun k hk => by cases hk⟩⟩)

theorem paramOrCreate_ok (n n' ch : Node) (slot : Slot) (path tmp0 : Str)
    (hok : paramOrCreate n path tmp0 = .ok (n', slot, ch)) :
    n'.child slot = some ch ∧ n'.typ = n.typ ∧ n'.path = n.path ∧
      (n' = n ∨ (n' = n.setChild slot ch ∧ ch.IsLeaf ∧
        ∀ k, slot = .static k → ch.typ = .nodeTypeStatic ∧ ch.path = k)) := by
  unfold paramOrCreate at hok
  repeat' split at hok
  all_goals first
    | (exfalso; simp at hok; done)
    | (simp only [Except.ok.injEq, Prod.mk.injEq] at hok
       obtain ⟨rfl, rfl, rfl⟩ := hok
       first
         | exact ⟨by assumption, rfl, rfl, Or.inl rfl⟩
         | exact ⟨Node.web_child_setChild _ _ _, by cases n; rfl, by cases n; rfl,
             Or.inr ⟨rfl, ⟨rfl, rfl, rfl, rfl⟩, fun k hk => by cases hk⟩⟩)

theorem staticOrCreate_ok (n n' ch : Node) (slot : Slot) (path : Str)
    (hok : staticOrCreate n path = .ok (n', slot, ch)) :
    n'.child slot = some ch ∧ n'.typ = n.typ ∧ n'.path = n.path ∧
      (n' = n ∨ (n' = n.setChild slot ch ∧ ch.IsLeaf ∧
        ∀ k, slot = .static k → ch.typ = .nodeTypeStatic ∧ ch.path = k)) := by
  unfold staticOrCreate at hok
  repeat' split at hok
  all_goals first
    | (exfalso; simp at hok; done)
    | (simp only [Except.ok.injEq, Prod.mk.injEq] at hok
       obtain ⟨rfl, rfl, rfl⟩ := hok
       first
         | exact ⟨by assumption, rfl, rfl, Or.inl rfl⟩
         | exact ⟨Node.web_child_setChild _ _ _, by cases n; rfl, by cases n; rfl,
             Or.inr ⟨rfl, ⟨rfl, rfl, rfl, rfl⟩, fun k hk => by cases hk; exact ⟨rfl, rfl⟩⟩⟩)

/-- What a successful `childOrCreate` returns: the returned node sits in the
returned slot of the receiver, which is the old receiver or the old receiver
with a new leaf in that slot; kind and path of the receiver are kept. -/
theorem childOrCreate_ok (lib : RegexpLib) (n n' ch : Node) (slot : Slot) (seg : Str)
    (hok : childOrCreate lib n seg = .ok (n', slot, ch)) :
    n'.child slot = some ch ∧ n'.typ = n.typ ∧ n'.path = n.path ∧
      (n' = n ∨ (n' = n.setChild slot ch ∧ ch.IsLeaf ∧
        ∀ k, slot = .static k → ch.typ = .nodeTypeStatic ∧ ch.path = k)) := by
  unfold childOrCreate at hok
  split_ifs at hok with h1
  · exact starOrCreate_ok _ _ _ _ hok
  · cases seg with
    | nil => simp at hok
    | cons c tail =>
      simp only at hok
      split_ifs at hok with h2 h3
      · exact regOrCreate_ok _ _ _ _ _ _ _ _ hok
      · exact paramOrCreate_ok _ _ _ _ _ _ hok
      · exact staticOrCreate_ok _ _ _ _ _ hok

theorem Node.web_setChild_of_child (n ch : Node) (slot : Slot) (hch : n.child slot = some ch) :
    n.setChild slot ch = n := by
  obtain ⟨t, p, cs, h, st, pc, pn, rc, re⟩ := n
  cases slot with
  | static seg =>
    simp only [Node.child, Node.children] at hch
    simp [Node.setChild, mapSet_of_mapGet _ _ _ hch]
  | reg =>
    simp only [Node.child, Node.regChild] at hch
    simp [Node.setChild, hch]
  | param =>
    simp only [Node.child, Node.paramChild] at hch
    simp [Node.setChild, hch]
  | star =>
    simp only [Node.child, Node.starChild] at hch
    simp [Node.setChild, hch]

theorem Node.typ_setChild (n c : Node) (slot : Slot) : (n.setChild slot c).typ = n.typ := by
  cases n; cases slot <;> rfl

theorem Node.web_path_setChild (n c : Node) (slot : Slot) : (n.setChild slot c).path = n.path := by
  cases n; cases slot <;> rfl

theorem Node.typ_setHandler (n : Node) (h : Option Handler) : (n.setHandler h).typ = n.typ := by
  cases n; rfl

theorem Node.web_path_setHandler (n : Node) (h : Option Handler) :
    (n.setHandler h).path = n.path := by
  cases n; rfl

/-- The walk of `addRoute` keeps a local invariant on every node of the tree,
and keeps kind and path of the node it starts from. -/
theorem web_addSegs_allNodes (lib : RegexpLib) (P : Node → Prop) (hP : LocalInvariant lib P)
    (segs : List Str) (n : Node) (h : Option Handler) (hn : Node.AllNodes P n) :
    Node.AllNodes P (addSegs lib segs n h).1 ∧ (addSegs lib segs n h).1.typ = n.typ ∧
      (addSegs lib segs n h).1.path = n.path := by
  induction segs generalizing n with
  | nil =>
    unfold addSegs
    split_ifs
    · exact ⟨hn, rfl, rfl⟩
    · exact ⟨Node.web_allNodes_setHandler P n h hn (hP.setHandler n h (hn [] n rfl)),
        Node.typ_setHandler n h, Node.web_path_setHandler n h⟩
  | cons seg rest ih =>
    unfold addSegs
    cases hc : childOrCreate lib n seg with
    | error e => exact ⟨hn, rfl, rfl⟩
    | ok res =>
      obtain ⟨n', slot, ch⟩ := res
      obtain ⟨hchild, htyp, hpath, hshape⟩ := childOrCreate_ok lib n n' ch slot seg hc
      have hPn' : P n' := by
        have := hP.step n n' ch ch slot seg hc (hn [] n rfl) rfl rfl
        rwa [Node.web_setChild_of_child _ _ _ hchild] at this
      have hn' : Node.AllNodes P n' := by
        rcases hshape with rfl | ⟨hset, hleaf, _⟩
        · exact hn
        · rw [hset] at hPn' ⊢
          exact Node.web_allNodes_setChild P n ch slot hn
            (Node.allNodes_leaf P ch (hP.leaf ch hleaf) hleaf) hPn'
      have hch : Node.AllNodes P ch := Node.web_allNodes_child P n' ch slot hn' hchild
      obtain ⟨h1, h2, h3⟩ := ih ch hch
      simp only
      refine ⟨Node.web_allNodes_setChild P n' _ slot hn' h1 ?_, ?_, ?_⟩
      · exact hP.step n n' ch _ slot seg hc (hn [] n rfl) h2 h3
      · rw [Node.typ_setChild, htyp]
      · rw [Node.web_path_setChild, hpath]

/-- Every node of every tree of a table built by `addRoute` calls satisfies a
local invariant. -/
theorem web_reachable_allNodes (lib : RegexpLib) (P : Node → Prop) (hP : LocalInvariant lib P)
    (r : Router) (hr : Reachable lib r) (m : Str) (root : Node)
    (hroot : mapGet m r.trees = some root) : Node.AllNodes P root := by
  induction hr generalizing m root with
  | fresh => simp [newRouter, mapGet] at hroot
  | step r0 method path handler _ ih =>
    have hnew : Node.AllNodes P (Node.mk .nodeTypeStatic ['/'] [] none none none [] none none) :=
      Node.allNodes_leaf P _ (hP.leaf _ ⟨rfl, rfl, rfl, rfl⟩) ⟨rfl, rfl, rfl, rfl⟩
    -- the table after the root of `method` is ensured
    have h1 : ∀ (t : List (Str × Node)), (∀ k x, mapGet k t = some x → Node.AllNodes P x) →
        ∀ (v : Node), Node.AllNodes P v → ∀ k x, mapGet k (mapSet method v t) = some x →
          Node.AllNodes P x := by
      intro t ht v hv k x hx
      by_cases hk : k = method
      · subst hk
        rw [mapGet_mapSet_self] at hx
        simp only [Option.some.injEq] at hx
        exact hx ▸ hv
      · rw [mapGet_mapSet_of_ne _ _ _ _ hk] at hx
        exact ht k x hx
    obtain ⟨t1, root1, ht1, hroot1, hr1, hroot1OK⟩ :
        ∃ (t1 : List (Str × Node)) (root1 : Node),
          (∀ k x, mapGet k t1 = some x → Node.AllNodes P x) ∧
          (mapGet method t1).getD
            (Node.mk .nodeTypeStatic ['/'] [] none none none [] none none) = root1 ∧
          (match mapGet method r0.trees with
            | some _ => r0
            | none => (⟨mapSet method
                (Node.mk .nodeTypeStatic ['/'] [] none none none [] none none) r0.trees⟩ :
                Router)) = ⟨t1⟩ ∧
          Node.AllNodes P root1 := by
      cases hg : mapGet method r0.trees with
      | some x => exact ⟨r0.trees, x, ih, by simp [hg], rfl, ih method x hg⟩
      | none =>
        exact ⟨_, _, h1 r0.trees ih _ hnew, by simp [mapGet_mapSet_self], rfl, hnew⟩
    unfold addRoute at hroot
    simp only [hr1, hroot1] at hroot
    split_ifs at hroot
    · exact ht1 m root hroot
    · exact ht1 m root hroot
    · exact h1 t1 ht1 _ (Node.web_allNodes_setHandler P root1 handler hroot1OK
        (hP.setHandler _ _ (hroot1OK [] root1 rfl))) m root hroot
    · exact ht1 m root hroot
    · exact ht1 m root hroot
    · exact ht1 m root hroot
    · exact ht1 m root hroot
    · exact h1 t1 ht1 _ (web_addSegs_allNodes lib P hP _ root1 handler hroot1OK).1 m root hroot

theorem Node.children_setChild (n d : Node) (slot : Slot) :
    (n.setChild slot d).children =
      match slot with
      | .static k => mapSet k d n.children
      | _ => n.children := by
  cases n; cases slot <;> rfl

/-- The entries of `children` are static nodes stored under their own path:
a local invariant. -/
theorem staticKeyed_invariant (lib : RegexpLib) : LocalInvariant lib Node.StaticKeyed where
  leaf := by
    intro n hleaf k c hc
    rw [hleaf.1] at hc
    simp [mapGet] at hc
  setHandler := by
    intro n h hn k c hc
    exact hn k c (by cases n; exact hc)
  step := by
    intro n n' ch d slot seg hok hn htyp hpath k c hc
    obtain ⟨hchild, _, _, hshape⟩ := childOrCreate_ok lib n n' ch slot seg hok
    have hn' : Node.StaticKeyed n' ∧
        ∀ k, slot = .static k → ch.typ = .nodeTypeStatic ∧ ch.path = k := by
      rcases hshape with rfl | ⟨hset, _, hnew⟩
      · exact ⟨hn, fun k hk => hn k ch (by subst hk; exact hchild)⟩
      · refine ⟨?_, hnew⟩
        intro k' c' hc'
        rw [hset, Node.children_setChild] at hc'
        cases slot with
        | static k0 =>
          by_cases hk : k' = k0
          · subst hk
            rw [mapGet_mapSet_self] at hc'
            simp only [Option.some.injEq] at hc'
            exact hc' ▸ hnew k' rfl
          · rw [mapGet_mapSet_of_ne _ _ _ _ hk] at hc'
            exact hn k' c' hc'
        | reg => exact hn k' c' hc'
        | param => exact hn k' c' hc'
        | star => exact hn k' c' hc'
    rw [Node.children_setChild] at hc
    cases slot with
    | static k0 =>
      by_cases hk : k = k0
      · subst hk
        rw [mapGet_mapSet_self] at hc
        simp only [Option.some.injEq] at hc
        subst hc
        rw [htyp, hpath]
        exact hn'.2 k rfl
      · rw [mapGet_mapSet_of_ne _ _ _ _ hk] at hc
        exact hn'.1 k c hc
    | reg => exact hn'.1 k c hc
    | param => exact hn'.1 k c hc
    | star => exact hn'.1 k c hc

/-- Claim C9 (priority law, `src/homework/class1/route.go`): in every table built
by `addRoute` calls, at every node `n` with a static child `c` registered for
the segment `s`, `childOf(n, s)` returns `c`, whatever regex, param or wildcard
child `n` has, and `findRoute` goes on from `c` with its parameter map untouched. -/
theorem priorityLaw (lib : RegexpLib) (r : Router) (hr : Reachable lib r) (m : Str)
    (root n c : Node) (slots : List Slot) (s : Str)
    (hroot : mapGet m r.trees = some root) (hn : Node.descend slots root = some n)
    (hc : mapGet s n.children = some c) :
    childOf lib n s = .ok (some c) ∧
    ∀ (rest : List Str) (pp : Option (List (Str × Str))),
      findLoop lib (s :: rest) n pp = findLoop lib rest c pp := by
  have hkey := web_reachable_allNodes lib _ (staticKeyed_invariant lib) r hr m root hroot slots n hn
    s c hc
  have hchild : childOf lib n s = .ok (some c) := by
    simp [childOf, hc, hkey.1, hkey.2]
  refine ⟨hchild, ?_⟩
  intro rest pp
  rw [findLoop]
  simp [hchild, hkey.1]

/-- Witness of `priorityLaw`: the node `user` has the regex child `:id(home)`,
whose expression matches `home`, and the static child `home`. -/
theorem priorityLaw_witness :
    childOf literalLib (Node.mk .nodeTypeStatic "user".toList
        [("home".toList, Node.mk .nodeTypeStatic "home".toList [] (some 2) none none [] none
          none)]
        none none none [] (some (Node.mk .nodeTypeReg ":id(home)".toList [] (some 1) none none
          "id".toList none (some "home".toList))) none) "home".toList =
      .ok (some (Node.mk .nodeTypeStatic "home".toList [] (some 2) none none [] none none)) :=
  (priorityLaw literalLib
    (addRoute literalLib (addRoute literalLib newRouter "GET".toList "/user/:id(home)".toList
      (some 1)).1 "GET".toList "/user/home".toList (some 2)).1
    (Reachable.step _ _ _ _ (Reachable.step _ _ _ _ Reachable.fresh))
    "GET".toList _ _ _ [.static "user".toList] "home".toList rfl rfl rfl).1

end Web

/-! ## Double slashes and trailing slashes -/

theorem containsDoubleSlash_iff (s : Str) :
    containsDoubleSlash s = true ↔ ['/', '/'] <:+: s := by
  induction s with
  | nil => simp [containsDoubleSlash]
  | cons c cs ih =>
    rw [doubleSlash_infix_cons]
    cases cs with
    | nil => simp [containsDoubleSlash]
    | cons d ds =>
      rw [← ih]
      simp [containsDoubleSlash]

theorem split_ne_nil (sep : Char) (s : Str) : split sep s ≠ [] := by
  cases s with
  | nil => simp [split]
  | cons c cs =>
    unfold split
    split_ifs
    · simp
    · cases hs : split sep cs <;> simp

theorem split_append_sep_nil (sep : Char) (s : Str) :
    split sep (s ++ [sep]) = split sep s ++ [[]] := by
  induction s with
  | nil => simp [split]
  | cons c cs ih =>
    by_cases hc : c = sep
    · simp [split, hc, ih]
    · cases hs : split sep cs with
      | nil => exact absurd hs (split_ne_nil sep cs)
      | cons a as => simp [split, hc, ih, hs]

theorem containsDoubleSlash_joinPath (segs : List Str) (hne : segs ≠ [])
    (hclean : ∀ s ∈ segs, s ≠ [] ∧ '/' ∉ s) :
    containsDoubleSlash ('/' :: joinPath segs) = false := by
  cases hseg : segs with
  | nil => exact absurd hseg hne
  | cons a rest =>
    rw [← hseg]
    have hj : joinPath segs ≠ [] := by
      rw [hseg]
      exact joinPath_ne_nil a rest (hclean a (by simp [hseg])).1
    have hlast : (joinPath segs).getLast? ≠ some '/' :=
      joinPath_getLast? segs hne (fun s hs => (hclean s hs).1) '/'
        (fun s hs => getLast?_ne_of_not_mem _ _ (hclean s hs).2)
    have hmem := split_mem_nil (joinPath segs) hj hlast
    rw [split_joinPath segs hne (fun s hs => (hclean s hs).2)] at hmem
    cases hd : containsDoubleSlash ('/' :: joinPath segs) with
    | false => rfl
    | true =>
      exfalso
      have := hmem.2 ((containsDoubleSlash_iff _).1 hd)
      exact (hclean [] this).1 rfl

namespace Web

/-! ### Registration and lookup of clean paths -/

/-- Shape of `addRoute` on a path `/s1/.../sk` of non-empty slash-free segments,
on a fresh router. -/
theorem web_addRoute_newRouter (lib : RegexpLib) (m : Str) (segs : List Str)
    (h : Option Handler) (hne : segs ≠ []) (hclean : ∀ s ∈ segs, s ≠ [] ∧ '/' ∉ s) :
    addRoute lib newRouter m ('/' :: joinPath segs) h =
      (⟨[(m, (addSegs lib segs
          (Node.mk .nodeTypeStatic ['/'] [] none none none [] none none) h).1)]⟩,
        (addSegs lib segs
          (Node.mk .nodeTypeStatic ['/'] [] none none none [] none none) h).2) := by
  have hsplit : split '/' ('/' :: joinPath segs) = [] :: segs := by
    rw [split, if_pos rfl, split_joinPath segs hne (fun s hs => (hclean s hs).2)]
  have hj : '/' :: joinPath segs ≠ ['/'] := by
    cases hseg : segs with
    | nil => exact absurd hseg hne
    | cons a rest =>
      have := joinPath_ne_nil a rest (hclean a (by simp [hseg])).1
      simpa using this
  have hlen : ¬ ([] :: segs).length < 2 := by
    cases hseg : segs with
    | nil => exact absurd hseg hne
    | cons a rest => simp
  have hlast : ([] :: segs).getLast? ≠ some [] := by
    cases hseg : segs with
    | nil => exact absurd hseg hne
    | cons a rest =>
      rw [List.getLast?_cons_cons, ← hseg]
      intro hl
      exact (hclean [] (List.mem_of_getLast?_eq_some hl)).1 rfl
  unfold addRoute
  simp only [newRouter, mapGet, mapSet, Option.getD_some, if_true, hsplit, if_neg hj,
    containsDoubleSlash_joinPath segs hne hclean, if_neg hlen, if_neg hlast, List.tail_cons]
  simp

/-- A static segment goes to the static branch of `childOrCreate`. -/
theorem childOrCreate_static (lib : RegexpLib) (n : Node) (seg : Str) (hseg : seg ≠ [])
    (hcolon : seg.head? ≠ some ':') (hstar : seg ≠ ['*']) :
    childOrCreate lib n seg = staticOrCreate n seg := by
  cases seg with
  | nil => exact absurd rfl hseg
  | cons c cs =>
    have hc : c ≠ ':' := by simpa using hcolon
    simp [childOrCreate, hstar, hc]

/-- Shape of `findRoute` on a path that starts with `/` and is not `/`. -/
theorem web_findRoute_slash (lib : RegexpLib) (r : Router) (m rest : Str) (root : Node)
    (hroot : mapGet m r.trees = some root) (hrest : rest ≠ []) :
    findRoute lib r m ('/' :: rest) = findLoop lib (split '/' rest) root none := by
  simp [findRoute, hroot, hrest, split]


/-! ### Parameters, regular expressions and the found flag -/

/-- Claim C11 (repeated parameter names, `src/homework/class1/route.go`): on a
fresh router `addRoute(m, "/user/:id/abc/:id", h)` succeeds, and for slash-free
`v1`, `v2` the lookup of `/user/v1/abc/v2` reports found with the parameter
mapping exactly `id ↦ v2`: the deeper binding overwrites the earlier one. -/
theorem repeatedParamName (lib : RegexpLib) (m : Str) (h : Option Handler) (v1 v2 : Str)
    (hv1 : '/' ∉ v1) (hv2 : '/' ∉ v2) :
    (addRoute lib newRouter m "/user/:id/abc/:id".toList h).2 = none ∧
    findRoute lib (addRoute lib newRouter m "/user/:id/abc/:id".toList h).1 m
        ('/' :: joinPath ["user".toList, v1, "abc".toList, v2]) =
      .ok (some ⟨Node.mk .nodeTypeParam ":id".toList [] h none none "id".toList none none,
        some [("id".toList, v2)]⟩, true) := by
  have hall : ∀ s ∈ ["user".toList, v1, "abc".toList, v2], '/' ∉ s := by
    intro s hs
    simp only [List.mem_cons, List.mem_singleton, List.not_mem_nil, or_false] at hs
    rcases hs with rfl | rfl | rfl | rfl
    · decide
    · exact hv1
    · decide
    · exact hv2
  have hadd : addRoute lib newRouter m "/user/:id/abc/:id".toList h =
      (⟨[(m, Node.mk .nodeTypeStatic ['/'] [("user".toList,
        Node.mk .nodeTypeStatic "user".toList [] none none
          (some (Node.mk .nodeTypeParam ":id".toList [("abc".toList,
            Node.mk .nodeTypeStatic "abc".toList [] none none
              (some (Node.mk .nodeTypeParam ":id".toList [] h none none "id".toList none
                none)) [] none none)]
            none none none "id".toList none none)) [] none none)]
        none none none [] none none)]⟩, none) := by
    simp [addRoute, newRouter, mapGet, mapSet, containsDoubleSlash, split, addSegs,
      childOrCreate, paramOrCreate, staticOrCreate, Node.setChild, Node.setHandler,
      Node.handler, Node.children, Node.starChild, Node.paramChild, Node.regChild]
  rw [hadd]
  refine ⟨rfl, ?_⟩
  rw [web_findRoute_slash lib _ m _ _ (by simp [mapGet]; rfl) (joinPath_ne_nil _ _ (by decide)),
    split_joinPath _ (by simp) hall]
  simp [findLoop, childOf, mapGet, mapSet, Node.children, Node.typ, Node.path, Node.regChild,
    Node.paramChild, Node.starChild, Node.paramName]

/-- Witness of `repeatedParamName` at `/user/123/abc/456`, the example of the doc
comment of `addRoute`. -/
theorem repeatedParamName_witness :
    findRoute literalLib (addRoute literalLib newRouter "GET".toList
        "/user/:id/abc/:id".toList (some 1)).1 "GET".toList
        ('/' :: joinPath ["user".toList, "123".toList, "abc".toList, "456".toList]) =
      .ok (some ⟨Node.mk .nodeTypeParam ":id".toList [] (some 1) none none "id".toList none
        none, some [("id".toList, "456".toList)]⟩, true) :=
  (repeatedParamName literalLib "GET".toList (some 1) "123".toList "456".toList (by decide)
    (by decide)).2

/-- Claim C12 (regex segment classification, `src/homework/class1/route.go`), the
code at the failing input: on a node without children, the segment
`:id(a|(b))`, whose pattern holds a `(`, is split into three parts by
`strings.Split` and becomes a param child named `id`, not a regex child. -/
theorem regexWithParen_becomes_param (lib : RegexpLib) :
    childOrCreate lib (Node.mk .nodeTypeStatic "user".toList [] none none none [] none none)
        ":id(a|(b))".toList =
      .ok (Node.mk .nodeTypeStatic "user".toList [] none none
          (some (Node.mk .nodeTypeParam ":id(a|(b))".toList [] none none none "id".toList none
            none)) [] none none,
        .param,
        Node.mk .nodeTypeParam ":id(a|(b))".toList [] none none none "id".toList none none) := by
  simp [childOrCreate, paramOrCreate, split, Node.setChild, Node.starChild, Node.paramChild,
    Node.regChild]

/-- A lookup that returns a node reports found: the handler is never examined. -/
theorem findLoop_some_found (lib : RegexpLib) (segs : List Str) (n : Node)
    (pp : Option (List (Str × Str))) (info : MatchInfo) (b : Bool)
    (hres : findLoop lib segs n pp = .ok (some info, b)) : b = true := by
  induction segs generalizing n pp with
  | nil =>
    simp only [findLoop, Except.ok.injEq, Prod.mk.injEq] at hres
    exact hres.2.symm
  | cons s rest ih =>
    rw [findLoop] at hres
    cases hc : childOf lib n s with
    | error e => simp [hc] at hres
    | ok res =>
      cases res with
      | none =>
        simp only [hc] at hres
        split_ifs at hres
        · simp only [Except.ok.injEq, Prod.mk.injEq] at hres
          exact hres.2.symm
        · simp at hres
      | some nc =>
        simp only [hc] at hres
        split_ifs at hres
        · exact ih _ _ hres
        · exact ih _ _ hres

/-- Claim C15 as stated fails: after only `/a/b`, the lookup of `/a` reports
found although the node of `a` has no handler. -/
theorem webNonRoutable_counterexample :
    findRoute literalLib (addRoute literalLib newRouter "GET".toList "/a/b".toList
        (some 1)).1 "GET".toList "/a".toList =
      .ok (some ⟨Node.mk .nodeTypeStatic "a".toList
        [("b".toList, Node.mk .nodeTypeStatic "b".toList [] (some 1) none none [] none none)]
        none none none [] none none, none⟩, true) :=
  rfl

/-- Claim C15 amended (`src/homework/class1/route.go`): whenever `findRoute`
returns a node it reports found, whether or not the node carries a handler;
and after registering only `/a/b` on a fresh router, the lookup of `/a` reports
found and returns the node of `a`, whose handler is nil. -/
theorem foundWithoutHandler (lib : RegexpLib) :
    (∀ (r : Router) (m p : Str) (info : MatchInfo) (b : Bool),
      findRoute lib r m p = .ok (some info, b) → b = true) ∧
    (∀ (m a b : Str) (h : Option Handler), a ≠ [] → '/' ∉ a → a.head? ≠ some ':' →
      a ≠ ['*'] → b ≠ [] → '/' ∉ b → b.head? ≠ some ':' → b ≠ ['*'] →
      (addRoute lib newRouter m ('/' :: joinPath [a, b]) h).2 = none ∧
      findRoute lib (addRoute lib newRouter m ('/' :: joinPath [a, b]) h).1 m ('/' :: a) =
        .ok (some ⟨Node.mk .nodeTypeStatic a
          [(b, Node.mk .nodeTypeStatic b [] h none none [] none none)]
          none none none [] none none, none⟩, true)) := by
  constructor
  · intro r m p info b hres
    unfold findRoute at hres
    split at hres
    · simp at hres
    · by_cases hp : p = ['/']
      · rw [if_pos hp] at hres
        split_ifs at hres
        · simp only [Except.ok.injEq, Prod.mk.injEq] at hres
          exact hres.2.symm
        · simp at hres
      · rw [if_neg hp] at hres
        by_cases hlen : (split '/' p).length = 0
        · simp [hlen] at hres
        · simp only [hlen, if_false] at hres
          exact findLoop_some_found lib _ _ _ _ _ hres
  · intro m a b h ha haSlash haColon haStar hb hbSlash hbColon hbStar
    have hclean : ∀ s ∈ [a, b], s ≠ [] ∧ '/' ∉ s := by
      intro s hs
      simp only [List.mem_cons, List.mem_singleton, List.not_mem_nil, or_false] at hs
      rcases hs with rfl | rfl
      · exact ⟨ha, haSlash⟩
      · exact ⟨hb, hbSlash⟩
    rw [web_addRoute_newRouter lib m [a, b] h (by simp) hclean]
    have hadd : addSegs lib [a, b]
        (Node.mk .nodeTypeStatic ['/'] [] none none none [] none none) h =
        (Node.mk .nodeTypeStatic ['/'] [(a, Node.mk .nodeTypeStatic a
          [(b, Node.mk .nodeTypeStatic b [] h none none [] none none)]
          none none none [] none none)] none none none [] none none, none) := by
      simp [addSegs, childOrCreate_static lib _ a ha haColon haStar,
        childOrCreate_static lib _ b hb hbColon hbStar, staticOrCreate, mapGet, mapSet,
        Node.children, Node.setChild, Node.setHandler, Node.handler]
    rw [hadd]
    refine ⟨rfl, ?_⟩
    rw [web_findRoute_slash lib _ m a _ (by simp [mapGet]; rfl) ha,
      split_of_not_mem _ _ haSlash]
    simp [findLoop, childOf, mapGet, Node.children, Node.typ, Node.path]

/-- Witness of `foundWithoutHandler`: only `/order/detail` is registered and
`/order` is looked up. -/
theorem foundWithoutHandler_witness :
    findRoute literalLib (addRoute literalLib newRouter "GET".toList
        ('/' :: joinPath ["order".toList, "detail".toList]) (some 1)).1 "GET".toList
        ('/' :: "order".toList) =
      .ok (some ⟨Node.mk .nodeTypeStatic "order".toList
        [("detail".toList,
          Node.mk .nodeTypeStatic "detail".toList [] (some 1) none none [] none none)]
        none none none [] none none, none⟩, true) :=
  ((foundWithoutHandler literalLib).2 "GET".toList "order".toList "detail".toList (some 1)
    (by decide) (by decide) (by decide) (by decide) (by decide) (by decide) (by decide)
    (by decide)).2

/-- Claim C16 (captured parameters, `src/homework/class1/route.go`), the code at
the failing input: after `/u/:id/*`, the lookup of `/u/5/a` returns the mapping
`id ↦ 5`, and the lookup of `/u/5/a/b`, which ends by the wildcard early stop,
returns a nil mapping. -/
theorem earlyStop_drops_params (lib : RegexpLib) :
    (addRoute lib newRouter "GET".toList "/u/:id/*".toList (some 1)).2 = none ∧
    findRoute lib (addRoute lib newRouter "GET".toList "/u/:id/*".toList (some 1)).1
        "GET".toList "/u/5/a".toList =
      .ok (some ⟨Node.mk .nodeTypeAny ['*'] [] (some 1) none none [] none none,
        some [("id".toList, "5".toList)]⟩, true) ∧
    findRoute lib (addRoute lib newRouter "GET".toList "/u/:id/*".toList (some 1)).1
        "GET".toList "/u/5/a/b".toList =
      .ok (some ⟨Node.mk .nodeTypeAny ['*'] [] (some 1) none none [] none none, none⟩,
        true) := by
  have hadd : addRoute lib newRouter "GET".toList "/u/:id/*".toList (some 1) =
      (⟨[("GET".toList, Node.mk .nodeTypeStatic ['/'] [("u".toList,
        Node.mk .nodeTypeStatic "u".toList [] none none
          (some (Node.mk .nodeTypeParam ":id".toList [] none
            (some (Node.mk .nodeTypeAny ['*'] [] (some 1) none none [] none none))
            none "id".toList none none)) [] none none)]
        none none none [] none none)]⟩, none) := by
    simp [addRoute, newRouter, mapGet, mapSet, containsDoubleSlash, split, addSegs,
      childOrCreate, paramOrCreate, staticOrCreate, starOrCreate, Node.setChild,
      Node.setHandler, Node.handler, Node.children, Node.starChild, Node.paramChild,
      Node.regChild]
  rw [hadd]
  refine ⟨rfl, ?_, ?_⟩
  · simp [findRoute, findLoop, childOf, split, mapGet, mapSet, Node.children, Node.typ,
      Node.path, Node.regChild, Node.paramChild, Node.starChild, Node.paramName]
  · simp [findRoute, findLoop, childOf, split, mapGet, mapSet, Node.children, Node.typ,
      Node.path, Node.regChild, Node.paramChild, Node.starChild, Node.paramName]

/-- Claim C17 as stated fails: after `/a/b`, the lookup of `/a/b` is found and the
lookup of `/a/b/` is not; and after `/u/:id`, the lookup of `/u/` binds `id` to
the empty trailing segment. -/
theorem trailingSlash_counterexample :
    (findRoute literalLib (addRoute literalLib newRouter "GET".toList "/a/b".toList
        (some 1)).1 "GET".toList "/a/b".toList =
      .ok (some ⟨Node.mk .nodeTypeStatic "b".toList [] (some 1) none none [] none none, none⟩,
        true) ∧
    findRoute literalLib (addRoute literalLib newRouter "GET".toList "/a/b".toList
        (some 1)).1 "GET".toList "/a/b/".toList = .ok (none, false)) ∧
    findRoute literalLib (addRoute literalLib newRouter "GET".toList "/u/:id".toList
        (some 1)).1 "GET".toList "/u/".toList =
      .ok (some ⟨Node.mk .nodeTypeParam ":id".toList [] (some 1) none none "id".toList none
        none, some [("id".toList, [])]⟩, true) :=
  ⟨⟨rfl, rfl⟩, rfl⟩

/-- A walk that gets through every segment is what the lookup returns, found. -/
theorem findLoop_of_walk (lib : RegexpLib) (segs : List Str) (n n' : Node)
    (pp pp' : Option (List (Str × Str))) (hwalk : walk lib segs n pp = some (n', pp')) :
    findLoop lib segs n pp = .ok (some ⟨n', pp'⟩, true) := by
  induction segs generalizing n pp with
  | nil =>
    simp only [walk, Option.some.injEq, Prod.mk.injEq] at hwalk
    obtain ⟨rfl, rfl⟩ := hwalk
    rfl
  | cons s rest ih =>
    rw [walk] at hwalk
    rw [findLoop]
    cases hc : childOf lib n s with
    | error e => simp [hc] at hwalk
    | ok res =>
      cases res with
      | none => simp [hc] at hwalk
      | some c =>
        simp only [hc] at hwalk ⊢
        split_ifs at hwalk ⊢
        · exact ih _ _ hwalk
        · exact ih _ _ hwalk

/-- The lookup of a segment list followed by one empty segment: when the walk
gets through the list, the empty segment is looked up by `childOf` at the node
reached; otherwise the lookup ends inside the list, as without the empty segment. -/
theorem findLoop_append_empty (lib : RegexpLib) (segs : List Str) (n : Node)
    (pp : Option (List (Str × Str))) :
    findLoop lib (segs ++ [[]]) n pp =
      match walk lib segs n pp with
      | some (n', pp') =>
        match childOf lib n' [] with
        | .error e => .error e
        | .ok none =>
          if n'.typ = .nodeTypeAny then .ok (some ⟨n', none⟩, true) else .ok (none, false)
        | .ok (some c) =>
          if c.typ = .nodeTypeParam ∨ c.typ = .nodeTypeReg then
            .ok (some ⟨c, some (mapSet c.paramName [] (pp'.getD []))⟩, true)
          else .ok (some ⟨c, pp'⟩, true)
      | none => findLoop lib segs n pp := by
  induction segs generalizing n pp with
  | nil =>
    simp only [List.nil_append, walk]
    rw [findLoop]
    cases hc : childOf lib n [] with
    | error e => rfl
    | ok res =>
      cases res with
      | none => rfl
      | some c =>
        simp only
        split_ifs <;> rfl
  | cons s rest ih =>
    simp only [List.cons_append]
    rw [findLoop, walk, findLoop]
    cases hc : childOf lib n s with
    | error e => rfl
    | ok res =>
      cases res with
      | none => rfl
      | some c =>
        simp only
        split_ifs
        · exact ih _ _
        · exact ih _ _

/-- Claim C17 amended (`src/homework/class1/route.go`): `findRoute` trims no
trailing slash. For a path `p` that starts with `/` and is not `/`: when every
segment of `p` selects a child, `findRoute(m, p)` returns the node `n` reached,
and `findRoute(m, p + "/")` looks the empty segment up at `n` with `childOf`,
like any other segment; it is then not found when `childOf` finds no child and
`n` is not a wildcard node, and a param child selected for it is bound to the
empty string. When some segment of `p` selects no child, `findRoute(m, p + "/")`
returns what `findRoute(m, p)` returns. -/
theorem trailingSlashKept (lib : RegexpLib) (r : Router) (m rest : Str) (root : Node)
    (hroot : mapGet m r.trees = some root) (hrest : rest ≠ []) :
    (findRoute lib r m (('/' :: rest) ++ ['/']) =
      match walk lib (split '/' rest) root none with
      | some (n, pp) =>
        match childOf lib n [] with
        | .error e => .error e
        | .ok none =>
          if n.typ = .nodeTypeAny then .ok (some ⟨n, none⟩, true) else .ok (none, false)
        | .ok (some c) =>
          if c.typ = .nodeTypeParam ∨ c.typ = .nodeTypeReg then
            .ok (some ⟨c, some (mapSet c.paramName [] (pp.getD []))⟩, true)
          else .ok (some ⟨c, pp⟩, true)
      | none => findRoute lib r m ('/' :: rest)) ∧
    (∀ (n : Node) (pp : Option (List (Str × Str))),
      walk lib (split '/' rest) root none = some (n, pp) →
      findRoute lib r m ('/' :: rest) = .ok (some ⟨n, pp⟩, true) ∧
      (childOf lib n [] = .ok none → n.typ ≠ .nodeTypeAny →
        findRoute lib r m (('/' :: rest) ++ ['/']) = .ok (none, false)) ∧
      (∀ c : Node, childOf lib n [] = .ok (some c) → c.typ = .nodeTypeParam →
        findRoute lib r m (('/' :: rest) ++ ['/']) =
          .ok (some ⟨c, some (mapSet c.paramName [] (pp.getD []))⟩, true))) := by
  have hp := web_findRoute_slash lib r m rest root hroot hrest
  have hslash : findRoute lib r m (('/' :: rest) ++ ['/']) =
      findLoop lib (split '/' rest ++ [[]]) root none := by
    rw [List.cons_append, web_findRoute_slash lib r m _ root hroot (by simp),
      split_append_sep_nil]
  have hmain := findLoop_append_empty lib (split '/' rest) root none
  refine ⟨?_, ?_⟩
  · rw [hslash, hmain, hp]
  · intro n pp hwalk
    rw [hslash, hmain, hwalk, hp]
    refine ⟨findLoop_of_walk lib _ _ _ _ _ hwalk, ?_, ?_⟩
    · intro hc hany
      simp [hc, hany]
    · intro c hc hparam
      simp [hc, hparam]

/-- Witness of `trailingSlashKept`: on the table that holds `/u/:id`, the walk of
`/u` ends at the node `u`, and the lookup of `/u/` binds `id` to the empty string. -/
theorem trailingSlashKept_witness :
    findRoute literalLib (addRoute literalLib newRouter "GET".toList "/u/:id".toList
        (some 1)).1 "GET".toList (('/' :: "u".toList) ++ ['/']) =
      .ok (some ⟨Node.mk .nodeTypeParam ":id".toList [] (some 1) none none "id".toList none
        none, some (mapSet "id".toList [] [])⟩, true) :=
  ((trailingSlashKept literalLib (addRoute literalLib newRouter "GET".toList "/u/:id".toList
    (some 1)).1 "GET".toList "u".toList _ rfl (by decide)).2
    (Node.mk .nodeTypeStatic "u".toList [] none none
      (some (Node.mk .nodeTypeParam ":id".toList [] (some 1) none none "id".toList none none))
      [] none none) none rfl).2.2
    (Node.mk .nodeTypeParam ":id".toList [] (some 1) none none "id".toList none none) rfl rfl


/-! ### Mutual exclusion of the dynamic children -/

theorem starOrCreate_atMostOne (n n' ch d : Node) (slot : Slot)
    (hok : starOrCreate n = .ok (n', slot, ch)) (hn : n.AtMostOneDynamic) :
    (n'.setChild slot d).AtMostOneDynamic := by
  obtain ⟨t, p, cs, h, st, pc, pn, rc, re⟩ := n
  unfold starOrCreate at hok
  repeat' split at hok
  all_goals first
    | (exfalso; simp at hok; done)
    | (simp only [Except.ok.injEq, Prod.mk.injEq] at hok
       obtain ⟨rfl, rfl, rfl⟩ := hok
       simp_all [Node.AtMostOneDynamic, Node.setChild, Node.paramChild, Node.starChild,
         Node.regChild])

theorem regOrCreate_atMostOne (lib : RegexpLib) (n n' ch d : Node) (slot : Slot)
    (path tmp0 tmp1 : Str) (hok : regOrCreate lib n path tmp0 tmp1 = .ok (n', slot, ch))
    (hn : n.AtMostOneDynamic) : (n'.setChild slot d).AtMostOneDynamic := by
  obtain ⟨t, p, cs, h, st, pc, pn, rc, re⟩ := n
  unfold regOrCreate at hok
  repeat' split at hok
  all_goals first
    | (exfalso; simp at hok; done)
    | (simp only [Except.ok.injEq, Prod.mk.injEq] at hok
       obtain ⟨rfl, rfl, rfl⟩ := hok
       simp_all [Node.AtMostOneDynamic, Node.setChild, Node.paramChild, Node.starChild,
         Node.regChild])

theorem paramOrCreate_atMostOne (n n' ch d : Node) (slot : Slot) (path tmp0 : Str)
    (hok : paramOrCreate n path tmp0 = .ok (n', slot, ch)) (hn : n.AtMostOneDynamic) :
    (n'.setChild slot d).AtMostOneDynamic := by
  obtain ⟨t, p, cs, h, st, pc, pn, rc, re⟩ := n
  unfold paramOrCreate at hok
  repeat' split at hok
  all_goals first
    | (exfalso; simp at hok; done)
    | (simp only [Except.ok.injEq, Prod.mk.injEq] at hok
       obtain ⟨rfl, rfl, rfl⟩ := hok
       simp_all [Node.AtMostOneDynamic, Node.setChild, Node.paramChild, Node.starChild,
         Node.regChild])

theorem staticOrCreate_atMostOne (n n' ch d : Node) (slot : Slot) (path : Str)
    (hok : staticOrCreate n path = .ok (n', slot, ch)) (hn : n.AtMostOneDynamic) :
    (n'.setChild slot d).AtMostOneDynamic := by
  obtain ⟨t, p, cs, h, st, pc, pn, rc, re⟩ := n
  unfold staticOrCreate at hok
  repeat' split at hok
  all_goals first
    | (exfalso; simp at hok; done)
    | (simp only [Except.ok.injEq, Prod.mk.injEq] at hok
       obtain ⟨rfl, rfl, rfl⟩ := hok
       simp_all [Node.AtMostOneDynamic, Node.setChild, Node.paramChild, Node.starChild,
         Node.regChild])

/-- At most one dynamic child per node: a local invariant. -/
theorem atMostOneDynamic_invariant (lib : RegexpLib) :
    LocalInvariant lib Node.AtMostOneDynamic where
  leaf := fun n hleaf => Or.inl ⟨hleaf.2.2.1, hleaf.2.2.2⟩
  setHandler := by
    intro n h hn
    cases n
    exact hn
  step := by
    intro n n' ch d slot seg hok hn _ _
    unfold childOrCreate at hok
    split_ifs at hok with h1
    · exact starOrCreate_atMostOne _ _ _ _ _ hok hn
    · cases seg with
      | nil => simp at hok
      | cons c tail =>
        simp only at hok
        split_ifs at hok with h2 h3
        · exact regOrCreate_atMostOne _ _ _ _ _ _ _ _ _ hok hn
        · exact paramOrCreate_atMostOne _ _ _ _ _ _ _ hok hn
        · exact staticOrCreate_atMostOne _ _ _ _ _ _ hok hn

/-- Claim C13 (mutual-exclusion invariant, `src/homework/class1/route.go`): in
every table built from `newRouter` by `addRoute` calls, raising ones included,
every node of every method tree has at most one of `paramChild`, `regChild`
and `starChild` non-nil. -/
theorem mutualExclusion (lib : RegexpLib) (r : Router) (hr : Reachable lib r) (m : Str)
    (root n : Node) (slots : List Slot) (hroot : mapGet m r.trees = some root)
    (hn : Node.descend slots root = some n) :
    (n.paramChild = none ∧ n.regChild = none) ∨ (n.paramChild = none ∧ n.starChild = none) ∨
      (n.regChild = none ∧ n.starChild = none) :=
  web_reachable_allNodes lib _ (atMostOneDynamic_invariant lib) r hr m root hroot slots n hn

/-- Witness of `mutualExclusion`: the node `user` after `/user/:id`, a raising
`/user/*` and a raising `/user/:id(a)`. -/
theorem mutualExclusion_witness :
    ((Node.mk .nodeTypeStatic "user".toList [] none none
        (some (Node.mk .nodeTypeParam ":id".toList [] (some 1) none none "id".toList none none))
        [] none none).paramChild = none ∧
      (Node.mk .nodeTypeStatic "user".toList [] none none
        (some (Node.mk .nodeTypeParam ":id".toList [] (some 1) none none "id".toList none none))
        [] none none).regChild = none) ∨
    ((Node.mk .nodeTypeStatic "user".toList [] none none
        (some (Node.mk .nodeTypeParam ":id".toList [] (some 1) none none "id".toList none none))
        [] none none).paramChild = none ∧
      (Node.mk .nodeTypeStatic "user".toList [] none none
        (some (Node.mk .nodeTypeParam ":id".toList [] (some 1) none none "id".toList none none))
        [] none none).starChild = none) ∨
    ((Node.mk .nodeTypeStatic "user".toList [] none none
        (some (Node.mk .nodeTypeParam ":id".toList [] (some 1) none none "id".toList none none))
        [] none none).regChild = none ∧
      (Node.mk .nodeTypeStatic "user".toList [] none none
        (some (Node.mk .nodeTypeParam ":id".toList [] (some 1) none none "id".toList none none))
        [] none none).starChild = none) :=
  mutualExclusion literalLib
    (addRoute literalLib (addRoute literalLib (addRoute literalLib newRouter "GET".toList
      "/user/:id".toList (some 1)).1 "GET".toList "/user/*".toList (some 2)).1 "GET".toList
      "/user/:id(a)".toList (some 3)).1
    (Reachable.step _ _ _ _ (Reachable.step _ _ _ _ (Reachable.step _ _ _ _ Reachable.fresh)))
    "GET".toList _ _ [.static "user".toList] rfl rfl

end Web

namespace Server

/-! ### Lookups on the tables built by `addRoute` -/

/-- The param child of every node has a non-empty path: a local invariant. -/
theorem paramPathNonempty_invariant : LocalInvariant Node.ParamPathNonempty where
  fresh := by
    intro seg pc hpc
    simp [Node.fresh, Node.paramChild] at hpc
  setHandler := by
    intro n h hn
    cases n
    exact hn
  step := by
    intro n n' ch d slot seg hok hn hpath
    obtain ⟨p, cs, st, pc, h⟩ := n
    unfold getOrCreateChild at hok
    repeat' split at hok
    all_goals first
      | (exfalso; simp at hok; done)
      | (simp only [Except.ok.injEq, Prod.mk.injEq] at hok
         obtain ⟨rfl, rfl, rfl⟩ := hok
         simp_all [Node.ParamPathNonempty, Node.setChild, Node.paramChild, Node.fresh,
           Node.path])

/-- The keys of `children` are static segments: a local invariant. -/
theorem staticKeys_invariant : LocalInvariant Node.StaticKeys where
  fresh := by
    intro seg k c hc
    simp [Node.fresh, Node.children, mapGet] at hc
  setHandler := by
    intro n h hn
    cases n
    exact hn
  step := by
    intro n n' ch d slot seg hok hn _ k c hc
    obtain ⟨hslot, _, _⟩ := getOrCreateChild_ok n n' ch slot seg hok
    obtain ⟨_, hshape⟩ := getOrCreateChild_shape n n' ch slot seg hok
    have hkey : ∀ k0 : Str, slot = .static k0 → slotOf k0 = .static k0 := by
      intro k0 hk0
      cases seg with
      | nil =>
        simp only [slotOf] at hslot
        rw [hslot] at hk0
        cases hk0
        rfl
      | cons a as =>
        rw [hslot] at hk0
        simp only [slotOf] at hk0 ⊢
        split_ifs at hk0 with h1 h2
        cases hk0
        simp [slotOf, h1, h2]
    have hn' : Node.StaticKeys n' := by
      rcases hshape with rfl | ⟨hset, _⟩
      · exact hn
      · intro k' c' hc'
        rw [hset] at hc'
        obtain ⟨p, cs, st, pc, h⟩ := n
        cases slot with
        | static k0 =>
          by_cases hk : k' = k0
          · subst hk
            exact hkey k' rfl
          · simp only [Node.setChild, Node.children] at hc'
            rw [mapGet_mapSet_of_ne _ _ _ _ hk] at hc'
            exact hn k' c' hc'
        | param => exact hn k' c' hc'
        | star => exact hn k' c' hc'
    obtain ⟨p, cs, st, pc, h⟩ := n'
    cases slot with
    | static k0 =>
      by_cases hk : k = k0
      · subst hk
        exact hkey k rfl
      · simp only [Node.setChild, Node.children] at hc
        rw [mapGet_mapSet_of_ne _ _ _ _ hk] at hc
        exact hn' k c hc
    | param => exact hn' k c hc
    | star => exact hn' k c hc

/-- On a non-nil receiver `childOf` returns normally; when it reports found, the
node it returns is a child of the receiver, and its param child when the
`paramChild` flag is set. -/
theorem childOf_some (n : Node) (seg : Str) :
    ∃ ch pflag found, childOf (some n) seg = .ok (ch, pflag, found) ∧
      (found = true → ∃ c slot, ch = some c ∧ n.child slot = some c ∧
        (pflag = true → n.paramChild = some c)) := by
  obtain ⟨p, cs, st, pc, h⟩ := n
  unfold childOf
  simp only [Node.children, Node.paramChild, Node.starChild]
  by_cases hcs : cs.isEmpty = true
  · simp only [hcs, if_true]
    cases pc with
    | some pc0 => exact ⟨_, _, _, rfl, fun _ => ⟨pc0, .param, rfl, rfl, fun _ => rfl⟩⟩
    | none =>
      cases st with
      | some st0 => exact ⟨_, _, _, rfl, fun _ => ⟨st0, .star, rfl, rfl, fun hf => by simp at hf⟩⟩
      | none => exact ⟨_, _, _, rfl, fun hf => by simp at hf⟩
  · simp only [hcs, if_false]
    cases hg : mapGet seg cs with
    | some c0 =>
      exact ⟨_, _, _, rfl, fun _ => ⟨c0, .static seg, rfl, hg, fun hf => by simp at hf⟩⟩
    | none =>
      cases pc with
      | some pc0 => exact ⟨_, _, _, rfl, fun _ => ⟨pc0, .param, rfl, rfl, fun _ => rfl⟩⟩
      | none =>
        cases st with
        | some st0 =>
          exact ⟨_, _, _, rfl, fun _ => ⟨st0, .star, rfl, rfl, fun hf => by simp at hf⟩⟩
        | none => exact ⟨_, _, _, rfl, fun hf => by simp at hf⟩

/-- The segment loop returns normally on a tree whose param children have
non-empty paths. -/
theorem findLoop_ok (segs : List Str) (n : Node) (pp : Option (List (Str × Str)))
    (hn : Node.AllNodes Node.ParamPathNonempty n) :
    ∃ res, findLoop segs (some n) pp = .ok res := by
  induction segs generalizing n pp with
  | nil => exact ⟨_, rfl⟩
  | cons seg rest ih =>
    obtain ⟨ch, pflag, found, hc, hfound⟩ := childOf_some n seg
    rw [findLoop, hc]
    cases found with
    | false => exact ⟨_, rfl⟩
    | true =>
      obtain ⟨c, slot, rfl, hchild, hparam⟩ := hfound rfl
      have hcAll := Node.allNodes_child _ n c slot hn hchild
      cases pflag with
      | false => simpa using ih c pp hcAll
      | true =>
        have hpath : c.path ≠ [] := hn [] n rfl c (hparam rfl)
        cases hp : c.path with
        | nil => exact absurd hp hpath
        | cons a name => simpa [hp] using ih c _ hcAll

/-- Claim C14 (lookup never faults, `src/server/router.go`): on every table built
from `newRouter` by `addRoute` calls, raising ones included, `findRoute` returns
normally for every method and every path: no nil pointer is dereferenced and
the slice `child.path[1:]` is in range. -/
theorem lookupNeverFaults (r : Router) (hr : Reachable r) (m p : Str) :
    ∃ res, findRoute r m p = .ok res := by
  unfold findRoute
  cases hroot : mapGet m r.tree with
  | none => exact ⟨_, rfl⟩
  | some root =>
    simp only
    split_ifs
    · exact ⟨_, rfl⟩
    · exact findLoop_ok _ root none
        (reachable_allNodes _ paramPathNonempty_invariant r hr m root hroot)

/-- Witness of `lookupNeverFaults`: the empty path on a table that holds a param
child under the root. -/
theorem lookupNeverFaults_witness :
    ∃ res, findRoute (addRoute newRouter "GET".toList "/:id".toList (some 1)).1 "GET".toList
      [] = .ok res :=
  lookupNeverFaults (addRoute newRouter "GET".toList "/:id".toList (some 1)).1
    (Reachable.step _ _ _ _ Reachable.fresh) "GET".toList []


/-! ### A registered pattern under its own text -/

/-- On a node of a table built by `addRoute`, the lookup of a segment takes the
child that the registration of the same segment takes. -/
theorem childOf_of_child (n c : Node) (seg : Str) (hex : n.Exclusive) (hkeys : n.StaticKeys)
    (hseg : seg ≠ []) (hc : n.child (slotOf seg) = some c) :
    childOf (some n) seg = .ok (some c, decide (slotOf seg = .param), true) := by
  obtain ⟨p, cs, st, pc, h⟩ := n
  have hmiss : slotOf seg ≠ .static seg → cs.isEmpty = false → mapGet seg cs = none := by
    intro hs _
    cases hg : mapGet seg cs with
    | none => rfl
    | some x => exact absurd (hkeys seg x hg) hs
  cases seg with
  | nil => exact absurd rfl hseg
  | cons a as =>
    by_cases ha : a = ':'
    · subst ha
      simp only [slotOf, if_true, Node.child, Node.paramChild] at hc hmiss
      subst hc
      by_cases hcs : cs.isEmpty = true
      · simp [childOf, Node.children, Node.paramChild, hcs, slotOf]
      · simp only [Bool.not_eq_true] at hcs
        simp [childOf, Node.children, Node.paramChild, hcs, slotOf,
          hmiss (by simp) hcs]
    · by_cases hstar : a :: as = ['*']
      · simp only [slotOf, ha, hstar, if_true, if_false, Node.child, Node.starChild] at hc hmiss
        subst hc
        have hpc : pc = none := by
          rcases hex with h1 | h1
          · exact h1
          · simp [Node.starChild] at h1
        subst hpc
        by_cases hcs : cs.isEmpty = true
        · simp [childOf, Node.children, Node.paramChild, Node.starChild, hcs, slotOf, ha, hstar]
        · simp only [Bool.not_eq_true] at hcs
          have hm := hmiss (by simp) hcs
          rw [hstar]
          simp [childOf, Node.children, Node.paramChild, Node.starChild, hcs, slotOf, hm]
      · simp only [slotOf, ha, hstar, if_false, Node.child, Node.children] at hc
        have hcs : cs.isEmpty = false := by
          cases cs with
          | nil => simp [mapGet] at hc
          | cons e es => rfl
        simp [childOf, Node.children, hcs, hc, slotOf, ha, hstar]

/-- The lookup of the segments of a registered pattern walks the nodes the
registration walked. -/
theorem findLoop_nodeAt (segs : List Str) (n node : Node) (pp : Option (List (Str × Str)))
    (hex : Node.AllNodes Node.Exclusive n) (hkeys : Node.AllNodes Node.StaticKeys n)
    (hpath : Node.AllNodes Node.ParamPathNonempty n) (hsegs : ∀ s ∈ segs, s ≠ [])
    (hnode : nodeAt segs n = some node) :
    ∃ pp', findLoop segs (some n) pp = .ok (some ⟨node, pp'⟩, node.handler.isSome) := by
  induction segs generalizing n pp with
  | nil =>
    simp only [nodeAt, Option.some.injEq] at hnode
    subst hnode
    exact ⟨pp, rfl⟩
  | cons seg rest ih =>
    simp only [nodeAt] at hnode
    cases hc : n.child (slotOf seg) with
    | none => simp [hc] at hnode
    | some c =>
      simp only [hc] at hnode
      have hchild := childOf_of_child n c seg (hex [] n rfl) (hkeys [] n rfl)
        (hsegs seg (by simp)) hc
      have hrest : ∀ s ∈ rest, s ≠ [] := fun s hs => hsegs s (List.mem_cons_of_mem _ hs)
      have h1 := Node.allNodes_child _ n c _ hex hc
      have h2 := Node.allNodes_child _ n c _ hkeys hc
      have h3 := Node.allNodes_child _ n c _ hpath hc
      rw [findLoop, hchild]
      by_cases hs : slotOf seg = .param
      · have hpc : n.paramChild = some c := by
          rw [hs] at hc
          exact hc
        have hne : c.path ≠ [] := hpath [] n rfl c hpc
        cases hp : c.path with
        | nil => exact absurd hp hne
        | cons a name => simpa [hs, hp] using ih c _ h1 h2 h3 hrest hnode
      · simpa [hs] using ih c pp h1 h2 h3 hrest hnode

theorem addSegs_ok_nonempty (segs : List Str) (n : Node) (h : Option Handler)
    (hok : (addSegs segs n h).2 = none) : ∀ s ∈ segs, s ≠ [] := by
  induction segs generalizing n with
  | nil => simp
  | cons seg rest ih =>
    by_cases hseg : seg = []
    · simp [addSegs, hseg] at hok
    · cases hg : getOrCreateChild n seg with
      | error e => simp [addSegs, hseg, hg] at hok
      | ok res =>
        obtain ⟨n', slot, ch⟩ := res
        have hok' : (addSegs rest ch h).2 = none := by simpa [addSegs, hseg, hg] using hok
        intro s hs
        rcases List.mem_cons.1 hs with rfl | hs
        · exact hseg
        · exact ih ch hok' s hs

/-- Claim C18 (a registered pattern is found under its own text,
`src/server/router.go`): on every table built by `addRoute` calls, if
`addRoute(m, p, h)` with a non-nil `h` succeeds, then `findRoute(m, p)` on the
resulting table reports found and returns the node of `p`, which carries `h`. -/
theorem registeredPatternFound (r : Router) (hr : Reachable r) (m p : Str) (h : Handler)
    (hok : (addRoute r m p (some h)).2 = none) :
    ∃ root node pp, mapGet m (addRoute r m p (some h)).1.tree = some root ∧
      nodeAt (patternSegs p) root = some node ∧ node.handler = some h ∧
      findRoute (addRoute r m p (some h)).1 m p = .ok (some ⟨node, pp⟩, true) := by
  have hr' : Reachable (addRoute r m p (some h)).1 := Reachable.step r m p (some h) hr
  obtain ⟨t, root, hroot, hp, hhead, hlast, _, heq⟩ := addRoute_ok r m p (some h) hok
  have hform := addRoute_of_root ⟨t⟩ m p (some h) root hroot hp hhead hlast
  rw [heq] at hok hr' ⊢
  by_cases hslash : p = ['/']
  · rw [hform, if_pos hslash] at hok hr' ⊢
    cases hh : root.handler with
    | some h0 => simp [hh] at hok
    | none =>
      have hnew : (Node.setHandler root (some h)).handler = some h := by
        obtain ⟨p0, cs, s, pc, h0⟩ := root
        rfl
      simp only [hh, Option.isSome_none, Bool.false_eq_true, if_false]
      refine ⟨_, _, none, mapGet_mapSet_self _ _ _, by simp [patternSegs, hslash, nodeAt],
        hnew, ?_⟩
      simp [findRoute, mapGet_mapSet_self, hslash]
  · rw [hform, if_neg hslash] at hok hr' ⊢
    simp only at hok hr' ⊢
    obtain ⟨⟨node, hnode, hh⟩, _⟩ := addSegs_ok _ root (some h) hok
    have hsegs := addSegs_ok_nonempty _ root (some h) hok
    cases p with
    | nil => exact absurd rfl hp
    | cons c rest =>
      simp only [List.head?_cons, Option.some.injEq] at hhead
      subst hhead
      have hrest : rest ≠ [] := fun e => hslash (by rw [e])
      simp only [trimPrefixSlash] at hsegs hnode hok hr' ⊢
      have hhd : rest.head? ≠ some '/' := by
        intro e
        have h1 : (split '/' rest).head? = some [] := (split_head_eq_nil rest).2 (Or.inr e)
        exact hsegs [] (List.mem_of_mem_head? (by simp [h1])) rfl
      have hl : rest.getLast? ≠ some '/' := by
        intro e
        apply hlast
        refine ⟨hslash, ?_⟩
        cases rest with
        | nil => exact absurd rfl hrest
        | cons d ds => simpa using e
      have hget := mapGet_mapSet_self m (addSegs (split '/' rest) root (some h)).1 t
      have hall := fun P hP => reachable_allNodes P hP _ hr' m _ hget
      obtain ⟨pp, hfind⟩ := findLoop_nodeAt (split '/' rest) _ node none
        (hall _ exclusive_invariant) (hall _ staticKeys_invariant)
        (hall _ paramPathNonempty_invariant) hsegs hnode
      refine ⟨_, node, pp, hget, by simpa [patternSegs, hslash, trimPrefixSlash] using hnode,
        hh, ?_⟩
      rw [findRoute_clean _ m rest _ hget hrest hhd hl, hfind, hh]
      rfl

/-- Witness of `registeredPatternFound`: the pattern `/order/*` of
`TestRouter_FindRoute`, looked up under its own text. -/
theorem registeredPatternFound_witness :
    ∃ root node pp, mapGet "GET".toList (addRoute (addRoute newRouter "GET".toList
        "/order/detail".toList (some 1)).1 "GET".toList "/order/*".toList (some 2)).1.tree =
        some root ∧
      nodeAt (patternSegs "/order/*".toList) root = some node ∧ node.handler = some 2 ∧
      findRoute (addRoute (addRoute newRouter "GET".toList "/order/detail".toList (some 1)).1
        "GET".toList "/order/*".toList (some 2)).1 "GET".toList "/order/*".toList =
        .ok (some ⟨node, pp⟩, true) :=
  registeredPatternFound (addRoute newRouter "GET".toList "/order/detail".toList (some 1)).1
    (Reachable.step _ _ _ _ Reachable.fresh) "GET".toList "/order/*".toList 2 (by decide)


/-! ### Frame of a registration -/

/-- A registration for one method leaves the trees of the other methods as they are. -/
theorem addRoute_other_method (r : Router) (m1 m2 p : Str) (h : Option Handler)
    (hne : m1 ≠ m2) : mapGet m2 (addRoute r m1 p h).1.tree = mapGet m2 r.tree := by
  have hset : ∀ (v : Node) (t : List (Str × Node)), mapGet m2 (mapSet m1 v t) = mapGet m2 t :=
    fun v t => mapGet_mapSet_of_ne m1 m2 v t (Ne.symm hne)
  have hr1 : mapGet m2 (match mapGet m1 r.tree with
      | some _ => r
      | none => (⟨mapSet m1 (Node.mk ['/'] [] none none none) r.tree⟩ : Router)).tree =
      mapGet m2 r.tree := by
    cases mapGet m1 r.tree with
    | some root => rfl
    | none => exact hset _ _
  unfold addRoute
  split_ifs <;>
    simp only [apply_ite Prod.fst, apply_ite Router.tree, apply_ite (mapGet m2), hset, hr1,
      ite_self]

/-- Claim C19 (per-method isolation, `src/server/router.go`): on every table, for
methods `m1 ≠ m2`, a call `addRoute(m1, p, h)`, successful or raising, leaves
the result of `findRoute(m2, q)` unchanged for every request path `q`. -/
theorem perMethodIsolation (r : Router) (m1 m2 p q : Str) (h : Option Handler)
    (hne : m1 ≠ m2) : findRoute (addRoute r m1 p h).1 m2 q = findRoute r m2 q := by
  unfold findRoute
  rw [addRoute_other_method r m1 m2 p h hne]

/-- Witness of `perMethodIsolation`: registering `POST /login` does not change
the lookup of `GET /user`. -/
theorem perMethodIsolation_witness :
    findRoute (addRoute (addRoute newRouter "GET".toList "/user".toList (some 1)).1
        "POST".toList "/login".toList (some 2)).1 "GET".toList "/user".toList =
      findRoute (addRoute newRouter "GET".toList "/user".toList (some 1)).1 "GET".toList
        "/user".toList :=
  perMethodIsolation (addRoute newRouter "GET".toList "/user".toList (some 1)).1
    "POST".toList "GET".toList "/login".toList "/user".toList (some 2) (by decide)

/-- Claim C20 as stated fails: on a fresh router the rejected path `aaa` leaves a
root node for `GET`, so that the lookup of `/` turns from not found to found;
and the rejected path `/a//b` leaves the node of `a`. -/
theorem rejectedAtomic_counterexample :
    ((addRoute newRouter "GET".toList "aaa".toList (some 1)).2 = some .noLeadingSlash ∧
      findRoute newRouter "GET".toList "/".toList = .ok (none, false) ∧
      findRoute (addRoute newRouter "GET".toList "aaa".toList (some 1)).1 "GET".toList
          "/".toList =
        .ok (some ⟨Node.mk ['/'] [] none none none, none⟩, true)) ∧
    ((addRoute newRouter "GET".toList "/a//b".toList (some 1)).2 = some .emptySegment ∧
      (addRoute newRouter "GET".toList "/a//b".toList (some 1)).1.tree =
        [("GET".toList, Node.mk ['/'] [("a".toList, Node.mk "a".toList [] none none none)]
          none none none)]) :=
  ⟨⟨rfl, rfl, rfl⟩, ⟨rfl, rfl⟩⟩

/-- Claim C20 amended (`src/server/router.go`): a path that is empty, does not
start with `/`, or is not `/` and ends with `/` makes `addRoute` panic; the
table is then unchanged when the path is empty or the method already has a
tree, and otherwise it is the old table with a root node `/` for the method. -/
theorem rejectedRegistration (r : Router) (m p : Str) (h : Option Handler)
    (hrej : p = [] ∨ p.head? ≠ some '/' ∨ (p ≠ ['/'] ∧ p.getLast? = some '/')) :
    (∃ e, (addRoute r m p h).2 = some e) ∧
    ((p = [] ∨ mapGet m r.tree ≠ none) → (addRoute r m p h).1 = r) ∧
    (p ≠ [] → mapGet m r.tree = none →
      (addRoute r m p h).1 = ⟨mapSet m (Node.mk ['/'] [] none none none) r.tree⟩) := by
  by_cases hp : p = []
  · subst hp
    simp [addRoute]
  · have hrej' : p.head? ≠ some '/' ∨ (p ≠ ['/'] ∧ p.getLast? = some '/') := by
      rcases hrej with h1 | h1 | h1
      · exact absurd h1 hp
      · exact Or.inl h1
      · exact Or.inr h1
    unfold addRoute
    rw [if_neg hp]
    cases hg : mapGet m r.tree with
    | some root =>
      by_cases hhead : p.head? = some '/'
      · have hl := hrej'.resolve_left (by simp [hhead])
        simp [hhead, hl, hp]
      · simp [hhead, hp]
    | none =>
      by_cases hhead : p.head? = some '/'
      · have hl := hrej'.resolve_left (by simp [hhead])
        simp [hhead, hl, hp]
      · simp [hhead, hp]

/-- Witness of `rejectedRegistration`: the rejected path `/aaa/` of
`TestRouter_AddRoute` on a table where `GET` has a tree. -/
theorem rejectedRegistration_witness :
    (addRoute (addRoute newRouter "GET".toList "/user".toList (some 1)).1 "GET".toList
        "/aaa/".toList (some 2)).1 =
      (addRoute newRouter "GET".toList "/user".toList (some 1)).1 :=
  (rejectedRegistration (addRoute newRouter "GET".toList "/user".toList (some 1)).1
    "GET".toList "/aaa/".toList (some 2) (Or.inr (Or.inr (by decide)))).2.1
    (Or.inr (fun e => Option.noConfusion
      ((rfl : some (Node.mk ['/'] [("user".toList, Node.mk "user".toList [] none none (some 1))]
          none none none) =
        mapGet "GET".toList (addRoute newRouter "GET".toList "/user".toList
          (some 1)).1.tree).trans e)))

end Server

end SeniorGo
